import Mathlib

/-!
A shallow embedding of the ETL core of the Profit-finder dashboard
(`Sales-Dash/etl.py`) and proofs about it.

Modelling conventions:
* A pandas cell is a `Value`: `null` models `NaN`/`NaT`/`pd.NA`, `num q`
  models a finite float (as a rational), `str` a string cell, `dateV` a
  parsed datetime (as an abstract integer timestamp), `infVal` an IEEE
  infinity (sign is not tracked; it is never consumed sign-sensitively by
  the verified properties).
* A DataFrame (`DF`) is an ordered list of named columns; pandas frames
  are rectangular, which here is the predicate `DF.uniformB`.
* A schema dict is an ordered association list with Python-dict
  semantics: assignment updates in place or appends, `pop` removes.
* Python code that mutates its `schema` argument in place
  (`compute_derived`) is embedded in state-passing style: the second
  component of the result is the post-state of the caller's dict.
* External library calls that are not part of this repository
  (pandas `to_datetime` element parsing, `dateutil.parser.parse`) are
  parameters (`DateParsers`); the 10%-threshold logic of
  `parse_date_series` itself is embedded faithfully.
-/

/-- A cell value of a table. -/
inductive Value where
  | null : Value
  | num (q : ℚ) : Value
  | str (s : String) : Value
  | dateV (d : ℤ) : Value
  | infVal : Value
deriving DecidableEq, Repr

namespace Value

/-- pandas `notna`: everything except the null/NaN cell is present
(infinities count as present in pandas). -/
def notnaB : Value → Bool
  | null => false
  | _ => true

/-- `Series.fillna d` on one cell. -/
def fillnaV (d : Value) (v : Value) : Value :=
  if v = null then d else v

/-- Float multiplication with NaN propagation; `inf * 0 = NaN`.
String/date operands are unreachable in the verified paths (the engine
multiplies only columns it has numerically coerced); they map to null. -/
def vMul : Value → Value → Value
  | null, _ => null
  | _, null => null
  | num a, num b => num (a * b)
  | infVal, num b => if b = 0 then null else infVal
  | num a, infVal => if a = 0 then null else infVal
  | infVal, infVal => infVal
  | _, _ => null

/-- Float subtraction with NaN propagation; `inf - inf = NaN`. -/
def vSub : Value → Value → Value
  | null, _ => null
  | _, null => null
  | num a, num b => num (a - b)
  | infVal, num _ => infVal
  | num _, infVal => infVal
  | infVal, infVal => null
  | _, _ => null

/-- Float division with NaN propagation: `x / 0` is an infinity for
`x ≠ 0` and NaN for `0 / 0`; `x / inf = 0`, `inf / inf = NaN`. -/
def vDiv : Value → Value → Value
  | null, _ => null
  | _, null => null
  | num a, num b => if b = 0 then (if a = 0 then null else infVal) else num (a / b)
  | num _, infVal => num 0
  | infVal, num _ => infVal
  | infVal, infVal => null
  | _, _ => null

/-- numpy rounding of a rational: round half to even (banker's
rounding), which is what `Series.round()` uses. -/
def roundHalfEven (q : ℚ) : ℚ :=
  let f : ℤ := ⌊q⌋
  let r : ℚ := q - f
  if r < 1/2 then (f : ℚ)
  else if 1/2 < r then ((f + 1 : ℤ) : ℚ)
  else if f % 2 = 0 then (f : ℚ) else ((f + 1 : ℤ) : ℚ)

/-- `Series.round()` on one cell: nulls and infinities pass through. -/
def roundV : Value → Value
  | num q => num (roundHalfEven q)
  | v => v

end Value

/-- Digits of a numeric literal to a natural number. -/
def natOfDigits (ds : List Char) : ℕ :=
  ds.foldl (fun n c => n * 10 + (c.toNat - '0'.toNat)) 0

/-- Keep only the characters `[0-9.\-eE]` — the regex
`[^\d\.\-eE]` → `""` replacement of `coerce_numeric`. -/
def stripNonNum (s : String) : String :=
  ⟨s.data.filter (fun c => c.isDigit || c = '.' || c = '-' || c = 'e' || c = 'E')⟩

/-- Parse the exponent tail of a float literal: optional minus sign then
at least one digit, consuming the whole remainder. -/
def parseExp : List Char → Option ℤ
  | '-' :: r =>
      let ds := r.takeWhile Char.isDigit
      if ds.isEmpty ∨ ¬ (r.dropWhile Char.isDigit).isEmpty then none
      else some (-(natOfDigits ds : ℤ))
  | r =>
      let ds := r.takeWhile Char.isDigit
      if ds.isEmpty ∨ ¬ (r.dropWhile Char.isDigit).isEmpty then none
      else some (natOfDigits ds : ℤ)

/-- Parse a float literal (as produced after `stripNonNum`): optional
minus sign, digits with an optional fractional part (at least one digit
overall), optional `e`/`E` exponent. Anything else — in particular the
empty string, to which `pd.to_numeric(..., errors="coerce")` maps every
fully-stripped cell — fails, i.e. becomes NaN. -/
def parseRat (s : String) : Option ℚ :=
  let (neg, cs) := match s.data with
    | '-' :: r => (true, r)
    | r => (false, r)
  let ds1 := cs.takeWhile Char.isDigit
  let r1 := cs.dropWhile Char.isDigit
  let (ds2, r2) := match r1 with
    | '.' :: r => (r.takeWhile Char.isDigit, r.dropWhile Char.isDigit)
    | r => (([] : List Char), r)
  if ds1.isEmpty ∧ ds2.isEmpty then none
  else
    let sexp : Option ℤ := match r2 with
      | [] => some 0
      | 'e' :: r => parseExp r
      | 'E' :: r => parseExp r
      | _ => none
    match sexp with
    | none => none
    | some e =>
        let mant : ℚ := (natOfDigits (ds1 ++ ds2) : ℚ) / ((10 : ℚ) ^ ds2.length)
        let mag : ℚ := if 0 ≤ e then mant * (10 : ℚ) ^ e.toNat else mant / (10 : ℚ) ^ (-e).toNat
        some (if neg then -mag else mag)

/-- `str.lower()`: per-character lowering. -/
def strLower (s : String) : String :=
  ⟨s.data.map Char.toLower⟩

/-- Remove leading and trailing whitespace from a character list. -/
def trimChars (cs : List Char) : List Char :=
  ((cs.dropWhile Char.isWhitespace).reverse.dropWhile Char.isWhitespace).reverse

/-- `str.strip()`: remove leading and trailing whitespace. -/
def strTrim (s : String) : String :=
  ⟨trimChars s.data⟩

/-- Python-style string rendering of a float that happens to be an
integer; non-integral rationals use the Lean rendering.  The exact text
is unobservable in the verified properties: it only enters columns that
are either kept as strings or fully stripped back to numerals. -/
def ratRender (q : ℚ) : String :=
  if q.den = 1 then toString q.num ++ ".0" else toString q

/-- `Series.astype(str)` on one cell: `NaN` renders as the string
`"nan"`, an infinity as `"inf"`; nothing is null afterwards. -/
def astypeStr : Value → Value
  | Value.null => Value.str "nan"
  | Value.num q => Value.str (ratRender q)
  | Value.str s => Value.str s
  | Value.dateV d => Value.str (toString d)
  | Value.infVal => Value.str "inf"

/-- `.str.strip()` on one cell: trims string cells, leaves others. -/
def trimStrV : Value → Value
  | Value.str s => Value.str (strTrim s)
  | v => v

/-- `fillna("Unknown")` on one cell. -/
def fillnaUnknown (v : Value) : Value :=
  Value.fillnaV (Value.str "Unknown") v

/-- One cell of `coerce_numeric`: numeric cells pass through, strings
are stripped of non-numeric characters and parsed, everything
unparseable becomes null.  (The source branches on the column dtype; on
a numeric column only the `num`/`null`/`infVal` cases occur and
`pd.to_numeric` is the identity on them, on an object column the
round-trip through `astype(str)` and the strip regex has exactly this
cell-wise effect.) -/
def coerceVal : Value → Value
  | Value.null => Value.null
  | Value.num q => Value.num q
  | Value.infVal => Value.infVal
  | Value.dateV _ => Value.null
  | Value.str s =>
      match parseRat (stripNonNum s) with
      | some q => Value.num q
      | none => Value.null

/-- `coerce_numeric` on a whole column (etl.py lines 67-72). -/
def coerce_numeric (col : List Value) : List Value :=
  col.map coerceVal

/-- The cell-wise effect of line 142,
`df.replace({"": pd.NA, "NA": pd.NA, "N/A": pd.NA})`. -/
def replaceTokenV (v : Value) : Value :=
  match v with
  | Value.str s => if s = "" ∨ s = "NA" ∨ s = "N/A" then Value.null else v
  | _ => v

section Tables

/-- A DataFrame: ordered named columns.  pandas frames are rectangular;
`uniformB` states that below. -/
structure DF where
  cols : List (String × List Value)
deriving DecidableEq, Repr

namespace DF

/-- `df.columns`. -/
def names (d : DF) : List String := d.cols.map Prod.fst

/-- `c in df.columns`. -/
def hasCol (d : DF) (n : String) : Bool := d.names.contains n

/-- `df[n]` (first column with that label). -/
def getCol (d : DF) (n : String) : Option (List Value) :=
  (d.cols.find? (fun p => p.1 = n)).map Prod.snd

/-- `df[n] = vs`: replace every column labelled `n` (pandas assigns all
duplicate labels at once), or append a new column. -/
def setCol (d : DF) (n : String) (vs : List Value) : DF :=
  if d.hasCol n then ⟨d.cols.map (fun p => if p.1 = n then (n, vs) else p)⟩
  else ⟨d.cols ++ [(n, vs)]⟩

/-- Apply `f` to the cells of column `n` (no-op when absent). -/
def updateCol (d : DF) (n : String) (f : List Value → List Value) : DF :=
  match d.getCol n with
  | some vs => d.setCol n (f vs)
  | none => d

/-- `len(df)`: the height of the frame (first column's length). -/
def nrows (d : DF) : ℕ :=
  match d.cols with
  | [] => 0
  | c :: _ => c.2.length

/-- Rectangularity: every column has the common height. -/
def uniformB (d : DF) : Bool :=
  d.cols.all (fun p => p.2.length = d.nrows)

end DF

end Tables

section Schemas

/-- A schema mapping, with Python-dict semantics on an ordered
association list. -/
abbrev Schema := List (String × String)

/-- `schema.get(k)`. -/
def sget (s : Schema) (k : String) : Option String :=
  (s.find? (fun p => p.1 = k)).map Prod.snd

/-- `schema[k] = v`: update in place, or append. -/
def sset (s : Schema) (k v : String) : Schema :=
  if (sget s k).isSome then s.map (fun p => if p.1 = k then (k, v) else p)
  else s ++ [(k, v)]

/-- `schema.pop(k, None)`. -/
def spop (s : Schema) (k : String) : Schema :=
  s.filter (fun p => ¬ p.1 = k)

/-- `k in schema and schema[k] in df.columns`: the canonical field `k`
resolves to an existing column. -/
def resolves (s : Schema) (d : DF) (k : String) : Bool :=
  match sget s k with
  | some c => d.hasCol c
  | none => false

end Schemas

section Matcher

/-- Stage-1 test of `_find_column` (line 29):
`c.lower().strip() == cand.lower().strip()`. -/
def exactP (cand c : String) : Bool :=
  strTrim (strLower c) = strTrim (strLower cand)

/-- Python's `a in b` on strings: `a` occurs contiguously in `b`. -/
def isSubChars (a : List Char) : List Char → Bool
  | [] => a.isEmpty
  | bh :: bt => a.isPrefixOf (bh :: bt) || isSubChars a bt

/-- Stage-2 test of `_find_column` (line 34): `cand.lower() in c.lower()`
— the candidate as a substring of the column name, never the reverse. -/
def subP (cand c : String) : Bool :=
  isSubChars (strLower cand).data (strLower c).data

/-- `for cand in candidates: for c in cols: if p cand c: return c` —
the nested loops of `_find_column`, candidates in the outer loop. -/
def findPair (p : String → String → Bool) : List String → List String → Option String
  | [], _ => none
  | cand :: rest, cols =>
      match cols.find? (fun c => p cand c) with
      | some c => some c
      | none => findPair p rest cols

/-- `_find_column` (etl.py lines 25-36): exact pass over all candidates
first, then the substring ("contains") pass. -/
def find_column (dfColumns candidates : List String) : Option String :=
  match findPair exactP candidates dfColumns with
  | some c => some c
  | none => findPair subP candidates dfColumns

/-- The matcher algorithm exactly as claim C4 words it: ties broken by
first column in file order and only then by candidate priority, i.e.
the columns form the outer loop of each stage. -/
def findColumnClaim (dfColumns candidates : List String) : Option String :=
  match dfColumns.findSome? (fun c =>
      (candidates.find? (fun cand => exactP cand c)).map (fun _ => c)) with
  | some c => some c
  | none =>
      dfColumns.findSome? (fun c =>
        (candidates.find? (fun cand => subP cand c)).map (fun _ => c))

/-- The amended tie-break order: first candidate in priority order, then
first column in file order, stage 1 exhausted before stage 2. -/
def findColumnCandMajor (dfColumns candidates : List String) : Option String :=
  match candidates.findSome? (fun cand => dfColumns.find? (fun c => exactP cand c)) with
  | some c => some c
  | none => candidates.findSome? (fun cand => dfColumns.find? (fun c => subP cand c))

/-- The alias table `COL_ALIASES` (etl.py lines 13-23), in source
order. -/
def COL_ALIASES : List (String × List String) :=
  [ ("order_id", ["order_id", "order", "id", "transaction_id", "txn_id"]),
    ("date", ["date", "order_date", "sale_date", "timestamp", "created_at"]),
    ("product", ["product", "product_name", "item", "sku", "title", "product_title"]),
    ("category", ["category", "product_category", "cat", "category_name"]),
    ("quantity", ["quantity", "qty", "units", "quantity_sold", "count"]),
    ("price", ["price", "unit_price", "selling_price", "price_per_unit"]),
    ("cost", ["cost", "unit_cost", "cost_price", "cogs"]),
    ("revenue", ["revenue", "total", "sale_amount", "amount", "subtotal"]),
    ("currency", ["currency", "curr"]) ]

/-- `infer_schema` (etl.py lines 38-46): run the matcher for each
canonical key in alias-table order, keeping only the matched keys. -/
def infer_schema (d : DF) : Schema :=
  COL_ALIASES.foldl
    (fun found kv =>
      match find_column d.names kv.2 with
      | some c => found ++ [(kv.1, c)]
      | none => found)
    []

/-- One iteration of the user-override loop (etl.py lines 148-156):
`None` (or the string `"None"`) removes the canonical field; a column
present in the table replaces the baseline; a column absent from the
table only logs a warning and leaves the schema untouched. -/
def mergeStep (d : DF) (s : Schema) (kv : String × Option String) : Schema :=
  match kv.2 with
  | none => spop s kv.1
  | some v =>
      if v = "None" then spop s kv.1
      else if d.hasCol v then sset s kv.1 v
      else s

/-- The user-override merge of `clean_dataframe` (etl.py lines 147-156),
folding the loop body over the user dict's entries in order. -/
def mergeUser (baseline : Schema) (user : List (String × Option String)) (d : DF) : Schema :=
  user.foldl (mergeStep d) baseline

end Matcher

section Derive

/-- The cost column used for profit (etl.py line 103):
`cost_col = schema.get("cost_total") or schema.get("cost")` — the
per-unit `cost` mapping is the fallback when no `cost_total` was
registered. -/
def costColOf (s : Schema) : Option String :=
  (sget s "cost_total").or (sget s "cost")

/-- The guard of etl.py line 111: the resolved revenue column and the
resolved cost column (with its per-unit fallback) both exist.  A `None`
from either `get` fails the Python membership test. -/
def profitReady (d : DF) (s : Schema) : Bool :=
  (match sget s "revenue" with
   | some rc => d.hasCol rc
   | none => false) &&
  (match costColOf s with
   | some cc => d.hasCol cc
   | none => false)

/-- One iteration of etl.py lines 80-82: numerically coerce field `k`'s
column when mapped and present. -/
def coerceStep (s : Schema) (d : DF) (k : String) : DF :=
  match sget s k with
  | some c => if d.hasCol c then d.updateCol c coerce_numeric else d
  | none => d

/-- etl.py lines 80-82: numerically coerce the quantity, price, revenue
and cost columns where mapped and present. -/
def coerceStage (x : DF × Schema) : DF × Schema :=
  (["quantity", "price", "revenue", "cost"].foldl (coerceStep x.2) x.1, x.2)

/-- etl.py lines 85-91: synthesize `revenue__computed = price * quantity`
when revenue does not resolve but price and quantity do, and register it
as the revenue mapping.  (`astype(float)` on the columns just coerced by
lines 80-82 is the identity, so the `except` branch is dead.) -/
def revenueSynth (x : DF × Schema) : DF × Schema :=
  let d := x.1
  let s := x.2
  if resolves s d "revenue" then x
  else
    match sget s "price", sget s "quantity" with
    | some pc, some qc =>
        if d.hasCol pc && d.hasCol qc then
          (d.setCol "revenue__computed"
             (List.zipWith Value.vMul ((d.getCol pc).getD []) ((d.getCol qc).getD [])),
           sset s "revenue" "revenue__computed")
        else x
    | _, _ => x

/-- etl.py lines 94-99: when both the per-unit cost and the quantity
resolve, synthesize `cost__computed = cost * quantity` and register it
as the `cost_total` mapping.  (Same dead `except` as above.) -/
def costSynth (x : DF × Schema) : DF × Schema :=
  let d := x.1
  let s := x.2
  match sget s "cost", sget s "quantity" with
  | some cc, some qc =>
      if d.hasCol cc && d.hasCol qc then
        (d.setCol "cost__computed"
           (List.zipWith Value.vMul ((d.getCol cc).getD []) ((d.getCol qc).getD [])),
         sset s "cost_total" "cost__computed")
      else x
  | _, _ => x

/-- `safe_margin` (etl.py lines 114-118) on one row's revenue and profit
cells.  Python's membership test `rev in (None, 0, np.nan)` runs on the
float64 scalars of the coerced revenue column, for which only the
comparison with `0` can succeed: a float is never `None`, and a NaN cell
is neither `==` nor `is` the distinct `np.nan` object — a null revenue
therefore falls through to the division, where NaN propagation yields
NaN all the same. -/
def safe_margin (rev profit : Value) : Value :=
  if rev = Value.num 0 then Value.null else Value.vDiv profit rev

/-- etl.py lines 104-108: `if col and col in df.columns:
df[col] = coerce_numeric(df[col])` for one optional column name. -/
def coerceIfPresent (d : DF) (oc : Option String) : DF :=
  match oc with
  | some c => if d.hasCol c then d.updateCol c coerce_numeric else d
  | none => d

/-- The else-branch of etl.py lines 120-122: `profit` and `margin`
columns full of nulls. -/
def nullProfitMargin (d : DF) : DF :=
  (d.setCol "profit" (List.replicate d.nrows Value.null)).setCol "margin"
    (List.replicate d.nrows Value.null)

/-- The then-branch of etl.py lines 111-119: `profit =
revenue.fillna(0) - cost.fillna(0)`, then the row-wise `safe_margin`
over the frame that already carries the new `profit` column. -/
def computedProfitMargin (d2 : DF) (rc cc : String) : DF :=
  let profitcol :=
    List.zipWith Value.vSub
      (((d2.getCol rc).getD []).map (Value.fillnaV (Value.num 0)))
      (((d2.getCol cc).getD []).map (Value.fillnaV (Value.num 0)))
  let d3 := d2.setCol "profit" profitcol
  d3.setCol "margin"
    (List.zipWith safe_margin ((d3.getCol rc).getD []) ((d3.getCol "profit").getD []))

/-- etl.py lines 101-122: re-coerce the resolved revenue and cost
columns, then either compute `profit = revenue.fillna(0) -
cost.fillna(0)` and the row-wise safe margin (when both resolve), or
fill both `profit` and `margin` with nulls. -/
def profitMarginStage (x : DF × Schema) : DF × Schema :=
  let s := x.2
  let d2 := coerceIfPresent (coerceIfPresent x.1 (sget s "revenue")) (costColOf s)
  match sget s "revenue", costColOf s with
  | some rc, some cc =>
      if d2.hasCol rc && d2.hasCol cc then (computedProfitMargin d2 rc cc, s)
      else (nullProfitMargin d2, s)
  | _, _ => (nullProfitMargin d2, s)

/-- etl.py lines 124-130: when quantity does not resolve but price and
revenue do, synthesize `quantity__inferred = (revenue /
price).round().fillna(0)` and register it as the quantity mapping.
(The division of two float columns cannot raise; the `except` is
dead.) -/
def quantityInferStage (x : DF × Schema) : DF × Schema :=
  let d := x.1
  let s := x.2
  if resolves s d "quantity" then x
  else
    match sget s "price", sget s "revenue" with
    | some pc, some rc =>
        if d.hasCol pc && d.hasCol rc then
          (d.setCol "quantity__inferred"
             ((List.zipWith Value.vDiv ((d.getCol rc).getD []) ((d.getCol pc).getD [])).map
                (fun v => Value.fillnaV (Value.num 0) (Value.roundV v))),
           sset s "quantity" "quantity__inferred")
        else x
    | _, _ => x

/-- `compute_derived` (etl.py lines 74-132).  The Python function copies
the frame, returns the new frame only, and mutates its `schema` dict
argument in place; the second component here is that dict's
post-state. -/
def compute_derived (d : DF) (s : Schema) : DF × Schema :=
  quantityInferStage (profitMarginStage (costSynth (revenueSynth (coerceStage (d, s)))))

end Derive

section Clean

/-- etl.py line 141: strip whitespace from the column labels. -/
def trimColNames (d : DF) : DF :=
  ⟨d.cols.map (fun p => (strTrim p.1, p.2))⟩

/-- etl.py line 142: normalize the empty-string / `"NA"` / `"N/A"`
tokens to null across the whole frame. -/
def replaceTokens (d : DF) : DF :=
  ⟨d.cols.map (fun p => (p.1, p.2.map replaceTokenV))⟩

/-- Modelled from the spec: the element-level date parsers are external
library calls (`pd.to_datetime` applied to one value, and
`dateutil.parser.parse` with `dayfirst=False` resp. `dayfirst=True`) —
not code of this repository.  They are parameters returning an abstract
timestamp, or `none` for a parse failure (`NaT`). -/
structure DateParsers where
  toDatetime : Value → Option ℤ
  dayfirstFalse : Value → Option ℤ
  dayfirstTrue : Value → Option ℤ

/-- `parse_date_series` (etl.py lines 48-65): vectorized parse first;
keep it if strictly more than 10% of the cells parsed, otherwise
re-parse element-wise with the month-first ordering, then the day-first
ordering, nulls staying null. -/
def parse_date_series (P : DateParsers) (col : List Value) : List Value :=
  let s_parsed := col.map (fun x =>
    match P.toDatetime x with
    | some t => Value.dateV t
    | none => Value.null)
  if s_parsed.countP (fun v => v.notnaB) * 10 > max 1 col.length then s_parsed
  else
    col.map (fun x =>
      if x = Value.null then Value.null
      else
        match P.dayfirstFalse x with
        | some t => Value.dateV t
        | none =>
            match P.dayfirstTrue x with
            | some t => Value.dateV t
            | none => Value.null)

/-- etl.py lines 147-156 wrapped in line 147's truthiness test: a `None`
or empty user schema leaves the inferred baseline as is. -/
def mergeStage (user : Option (List (String × Option String))) (x : DF × Schema) : DF × Schema :=
  match user with
  | none => x
  | some u => if u.isEmpty then x else (x.1, mergeUser x.2 u x.1)

/-- etl.py lines 159-165: parse the resolved date column into the
synthesized `_parsed_date` column and re-register the date mapping.
(The second `pd.to_datetime(..., errors="coerce")` is the identity on
the just-parsed datetime column, and with total element parsers the
`except` branch is dead.) -/
def dateStage (P : DateParsers) (x : DF × Schema) : DF × Schema :=
  let d := x.1
  let s := x.2
  match sget s "date" with
  | some c =>
      if d.hasCol c then
        (d.setCol "_parsed_date" (parse_date_series P ((d.getCol c).getD [])),
         sset s "date" "_parsed_date")
      else x
  | none => x

/-- One cell of etl.py line 170:
`astype(str).fillna("Unknown").str.strip()`. -/
def cleanTextV (v : Value) : Value :=
  trimStrV (fillnaUnknown (astypeStr v))

/-- One iteration of etl.py lines 168-170: string-convert and trim the
column field `k` resolves to. -/
def textTrimStep (s : Schema) (d : DF) (k : String) : DF :=
  match sget s k with
  | some c => if d.hasCol c then d.updateCol c (List.map cleanTextV) else d
  | none => d

/-- etl.py lines 167-170: string-convert and trim the resolved product,
category and order_id columns, in that order. -/
def textTrimStage (x : DF × Schema) : DF × Schema :=
  (["product", "category", "order_id"].foldl (textTrimStep x.2) x.1, x.2)

/-- etl.py lines 172-178: coerce the resolved quantity column and fill
nulls with the single-unit default `1`.  (`coerce_numeric` is total, so
the `except` fallback is dead.) -/
def qtyFillStage (x : DF × Schema) : DF × Schema :=
  let d := x.1
  let s := x.2
  match sget s "quantity" with
  | some c =>
      if d.hasCol c then
        (d.updateCol c (fun col => (coerce_numeric col).map (Value.fillnaV (Value.num 1))), s)
      else x
  | none => x

/-- `clean_dataframe` through the date step (etl.py lines 140-165):
column-name trimming, token nulling, inference, user merge and date
parsing. -/
def cleanToDate (P : DateParsers) (d : DF)
    (user : Option (List (String × Option String))) : DF × Schema :=
  let d0 := replaceTokens (trimColNames d)
  dateStage P (mergeStage user (d0, infer_schema d0))

/-- `clean_dataframe` up to (but excluding) `compute_derived`:
etl.py lines 140-178. -/
def cleanPreDerive (P : DateParsers) (d : DF)
    (user : Option (List (String × Option String))) : DF × Schema :=
  qtyFillStage (textTrimStage (cleanToDate P d user))

/-- Boolean-mask row selection `df[mask]`. -/
def maskFilter : List Bool → List Value → List Value
  | true :: bs, v :: vs => v :: maskFilter bs vs
  | false :: bs, _ :: vs => maskFilter bs vs
  | _, _ => []

/-- `has_any |= series.notna()` for one optional column. -/
def orMask (m : List Bool) : Option (List Value) → List Bool
  | some col => List.zipWith (fun b v => b || v.notnaB) m col
  | none => m

/-- The column a canonical field resolves to, if any — the combined
guard `k in schema and schema[k] in df.columns` of lines 185-190. -/
def resolvedCol (d : DF) (s : Schema) (k : String) : Option (List Value) :=
  match sget s k with
  | some c => d.getCol c
  | none => none

/-- The row-admission mask of etl.py lines 184-190: start from all-false
`has_any` and OR in the non-nullness of the resolved date, revenue and
product columns. -/
def admitMask (d : DF) (s : Schema) : List Bool :=
  orMask
    (orMask (orMask (List.replicate d.nrows false) (resolvedCol d s "date"))
      (resolvedCol d s "revenue"))
    (resolvedCol d s "product")

/-- `df = df[has_any]` (line 191): keep the rows the mask admits.
`reset_index(drop=True)` does not change the embedded table. -/
def filterDF (d : DF) (m : List Bool) : DF :=
  ⟨d.cols.map (fun p => (p.1, maskFilter m p.2))⟩

/-- `clean_dataframe` before the admission filter: the cleaned frame and
the final (mutated) schema going into lines 183-191. -/
def cleanPreFilter (P : DateParsers) (d : DF)
    (user : Option (List (String × Option String))) : DF × Schema :=
  let y := cleanPreDerive P d user
  compute_derived y.1 y.2

/-- `clean_dataframe` (etl.py lines 134-194). -/
def clean_dataframe (P : DateParsers) (d : DF)
    (user : Option (List (String × Option String))) : DF × Schema :=
  let z := cleanPreFilter P d user
  (filterDF z.1 (admitMask z.1 z.2), z.2)

end Clean

section ALookLemmas

/-- Lookup in an ordered association list — the common shape of `sget`
and `DF.getCol`. -/
def alook {α : Type _} (l : List (String × α)) (k : String) : Option α :=
  (l.find? (fun p => p.1 = k)).map Prod.snd

theorem sget_eq_alook (s : Schema) (k : String) : sget s k = alook s k := rfl

theorem getCol_eq_alook (d : DF) (n : String) : d.getCol n = alook d.cols n := rfl

theorem alook_nil {α : Type _} (k : String) : alook ([] : List (String × α)) k = none := rfl

theorem alook_cons {α : Type _} (p : String × α) (t : List (String × α)) (k : String) :
    alook (p :: t) k = if p.1 = k then some p.2 else alook t k := by
  by_cases h : p.1 = k
  · rw [alook, List.find?_cons_of_pos _ (by simpa using h), if_pos h]
    rfl
  · rw [alook, List.find?_cons_of_neg _ (by simpa using h), if_neg h]
    rfl

theorem alook_append {α : Type _} (l1 l2 : List (String × α)) (k : String) :
    alook (l1 ++ l2) k = (alook l1 k).or (alook l2 k) := by
  induction l1 with
  | nil => simp [alook_nil]
  | cons p t ih =>
      rw [List.cons_append, alook_cons, alook_cons]
      by_cases h : p.1 = k <;> simp [h, ih]

theorem alook_mapSet {α : Type _} (l : List (String × α)) (n : String) (v : α) (m : String) :
    alook (l.map (fun p => if p.1 = n then (n, v) else p)) m =
      if m = n then (alook l n).map (fun _ => v) else alook l m := by
  induction l with
  | nil => by_cases h : m = n <;> simp [alook_nil, h]
  | cons p t ih =>
      by_cases hp : p.1 = n
      · by_cases hm : m = n
        · subst hm
          simp [List.map_cons, hp, alook_cons, ih]
        · have hnm : ¬ ((n, v).1 = m) := fun hh => hm hh.symm
          have hpm : ¬ (p.1 = m) := by rw [hp]; exact fun hh => hm hh.symm
          simp [List.map_cons, hp, alook_cons, ih, hm, hnm, hpm]
      · by_cases hm : m = n
        · subst hm
          simp [List.map_cons, hp, alook_cons, ih]
        · simp [List.map_cons, hp, alook_cons, ih, hm]

theorem alook_filterNe {α : Type _} (l : List (String × α)) (k m : String) :
    alook (l.filter (fun p => ¬ p.1 = k)) m =
      if m = k then none else alook l m := by
  induction l with
  | nil => by_cases h : m = k <;> simp [alook_nil, h]
  | cons p t ih =>
      simp only [decide_not] at ih
      by_cases hp : p.1 = k
      · by_cases hm : m = k
        · subst hm
          simp [List.filter_cons, hp, ih]
        · have hkm : ¬ (k = m) := fun hh => hm hh.symm
          simp [List.filter_cons, hp, ih, hm, alook_cons, hkm]
      · by_cases hm : m = k
        · subst hm
          simp [List.filter_cons, hp, ih, alook_cons]
        · simp [List.filter_cons, hp, ih, hm, alook_cons]

theorem contains_eq_alook_isSome {α : Type _} (l : List (String × α)) (k : String) :
    (l.map Prod.fst).contains k = (alook l k).isSome := by
  induction l with
  | nil => rfl
  | cons p t ih =>
      by_cases h : p.1 = k
      · simp [List.map_cons, List.contains_cons, alook_cons, h]
      · have hb : (k == p.1) = false := beq_eq_false_iff_ne.mpr (fun hh => h hh.symm)
        simp only [List.map_cons, List.contains_cons, alook_cons, h, hb, if_neg,
          Bool.false_or]
        simpa using ih

end ALookLemmas

section DictLemmas

theorem sget_sset_self (s : Schema) (k v : String) : sget (sset s k v) k = some v := by
  unfold sset
  by_cases h : (sget s k).isSome
  · rcases Option.isSome_iff_exists.mp h with ⟨c, hc⟩
    rw [if_pos h, sget_eq_alook, alook_mapSet, if_pos rfl, ← sget_eq_alook, hc]
    rfl
  · have hn : sget s k = none := Option.not_isSome_iff_eq_none.mp h
    rw [if_neg h, sget_eq_alook, alook_append, ← sget_eq_alook, hn, alook_cons, if_pos rfl]
    rfl

theorem sget_sset_ne (s : Schema) (k v k' : String) (h : k' ≠ k) :
    sget (sset s k v) k' = sget s k' := by
  unfold sset
  by_cases hs : (sget s k).isSome
  · rw [if_pos hs, sget_eq_alook, alook_mapSet, if_neg h, ← sget_eq_alook]
  · have hkv : ¬ ((k, v).1 = k') := fun hh => h hh.symm
    rw [if_neg hs, sget_eq_alook, alook_append, alook_cons, if_neg hkv, alook_nil,
      ← sget_eq_alook]
    cases sget s k' <;> rfl

theorem sget_spop_self (s : Schema) (k : String) : sget (spop s k) k = none := by
  rw [show spop s k = s.filter (fun p => ¬ p.1 = k) from rfl, sget_eq_alook,
    alook_filterNe, if_pos rfl]

theorem sget_spop_ne (s : Schema) (k k' : String) (h : k' ≠ k) :
    sget (spop s k) k' = sget s k' := by
  rw [show spop s k = s.filter (fun p => ¬ p.1 = k) from rfl, sget_eq_alook,
    alook_filterNe, if_neg h, ← sget_eq_alook]

end DictLemmas

section DFLemmas

theorem hasCol_eq_isSome (d : DF) (n : String) : d.hasCol n = (d.getCol n).isSome := by
  rw [getCol_eq_alook, ← contains_eq_alook_isSome]
  rfl

theorem getCol_setCol_self (d : DF) (n : String) (vs : List Value) :
    (d.setCol n vs).getCol n = some vs := by
  unfold DF.setCol
  by_cases h : d.hasCol n
  · have hs : (d.getCol n).isSome := by rw [← hasCol_eq_isSome]; exact h
    rcases Option.isSome_iff_exists.mp hs with ⟨c, hc⟩
    rw [if_pos h, getCol_eq_alook, alook_mapSet, if_pos rfl, ← getCol_eq_alook, hc]
    rfl
  · have hn : d.getCol n = none := by
      rw [hasCol_eq_isSome] at h
      exact Option.not_isSome_iff_eq_none.mp h
    rw [if_neg h, getCol_eq_alook, alook_append, ← getCol_eq_alook, hn, alook_cons,
      if_pos rfl]
    rfl

theorem getCol_setCol_ne (d : DF) (n : String) (vs : List Value) (m : String) (h : m ≠ n) :
    (d.setCol n vs).getCol m = d.getCol m := by
  unfold DF.setCol
  by_cases hc : d.hasCol n
  · rw [if_pos hc, getCol_eq_alook, alook_mapSet, if_neg h, ← getCol_eq_alook]
  · have hnm : ¬ ((n, vs).1 = m) := fun hh => h hh.symm
    rw [if_neg hc, getCol_eq_alook, alook_append, alook_cons, if_neg hnm, alook_nil,
      ← getCol_eq_alook]
    cases d.getCol m <;> rfl

theorem getCol_updateCol_ne (d : DF) (n : String) (f : List Value → List Value)
    (m : String) (h : m ≠ n) : (d.updateCol n f).getCol m = d.getCol m := by
  unfold DF.updateCol
  cases hg : d.getCol n
  · rfl
  · exact getCol_setCol_ne _ _ _ _ h

theorem getCol_updateCol_self (d : DF) (n : String) (f : List Value → List Value)
    (vs : List Value) (h : d.getCol n = some vs) :
    (d.updateCol n f).getCol n = some (f vs) := by
  unfold DF.updateCol
  rw [h]
  exact getCol_setCol_self _ _ _

theorem hasCol_setCol (d : DF) (n : String) (vs : List Value) (m : String) :
    (d.setCol n vs).hasCol m = (d.hasCol m || m = n) := by
  rw [hasCol_eq_isSome, hasCol_eq_isSome]
  by_cases h : m = n
  · subst h
    simp [getCol_setCol_self]
  · simp [getCol_setCol_ne d n vs m h, h]

theorem hasCol_updateCol (d : DF) (n : String) (f : List Value → List Value) (m : String) :
    (d.updateCol n f).hasCol m = d.hasCol m := by
  unfold DF.updateCol
  cases hg : d.getCol n
  · rfl
  · rw [hasCol_setCol]
    by_cases h : m = n
    · subst h
      have : d.hasCol m := by rw [hasCol_eq_isSome, hg]; rfl
      simp [this]
    · simp [h]

end DFLemmas

section MatcherLemmas

theorem findPair_eq_findSome (p : String → String → Bool) (cands cols : List String) :
    findPair p cands cols = cands.findSome? (fun cand => cols.find? (fun c => p cand c)) := by
  induction cands with
  | nil => rfl
  | cons cand rest ih =>
      simp only [findPair, List.findSome?]
      cases h : cols.find? (fun c => p cand c) with
      | none => exact ih
      | some c => rfl

theorem findPair_eq_none_iff (p : String → String → Bool) (cands cols : List String) :
    findPair p cands cols = none ↔ ∀ cand ∈ cands, ∀ c ∈ cols, p cand c = false := by
  rw [findPair_eq_findSome, List.findSome?_eq_none_iff]
  constructor
  · intro h cand hc c hcol
    have h2 := h cand hc
    rw [List.find?_eq_none] at h2
    simpa using h2 c hcol
  · intro h cand hc
    rw [List.find?_eq_none]
    intro c hcol
    simp [h cand hc c hcol]

theorem findPair_eq_some_mem (p : String → String → Bool) (cands cols : List String)
    (c : String) (h : findPair p cands cols = some c) :
    c ∈ cols ∧ ∃ cand ∈ cands, p cand c = true := by
  induction cands with
  | nil => simp [findPair] at h
  | cons cand rest ih =>
      simp only [findPair] at h
      cases hf : cols.find? (fun cc => p cand cc) with
      | none =>
          rw [hf] at h
          obtain ⟨hm, cand', hc', hp'⟩ := ih h
          exact ⟨hm, cand', List.mem_cons_of_mem _ hc', hp'⟩
      | some c1 =>
          rw [hf] at h
          simp only [Option.some.injEq] at h
          subst h
          refine ⟨List.mem_of_find?_eq_some hf, cand, List.mem_cons_self _ _, ?_⟩
          simpa using List.find?_some hf

end MatcherLemmas

/-- **C4** (amended): `_find_column` runs a two-stage first-success-wins
algorithm — stage 1 a case- and trim-insensitive exact match, stage 2 a
case-insensitive substring match of the candidate inside the column name
(never the reverse direction) — and returns none when neither stage
matches; it is deterministic, but ties are broken by first *candidate*
in priority order and only then by first column in file order (the
candidates form the outer loop), not column-first as claimed. -/
theorem c4_matcher_algorithm (cols cands : List String) :
    find_column cols cands = findColumnCandMajor cols cands ∧
    (find_column cols cands = none ↔
      ∀ cand ∈ cands, ∀ c ∈ cols, exactP cand c = false ∧ subP cand c = false) := by
  constructor
  · rw [find_column, findColumnCandMajor, findPair_eq_findSome, findPair_eq_findSome]
  · rw [find_column]
    cases h1 : findPair exactP cands cols with
    | none =>
        have hexact := (findPair_eq_none_iff exactP cands cols).mp h1
        show findPair subP cands cols = none ↔ _
        rw [findPair_eq_none_iff]
        constructor
        · intro hsub cand hc c hcol
          exact ⟨hexact cand hc c hcol, hsub cand hc c hcol⟩
        · intro hall cand hc c hcol
          exact (hall cand hc c hcol).2
    | some c0 =>
        show some c0 = none ↔ _
        constructor
        · intro h
          exact absurd h (by simp)
        · intro hall
          obtain ⟨hmem, cand, hcand, hp⟩ := findPair_eq_some_mem exactP cands cols c0 h1
          have := (hall cand hcand c0 hmem).1
          rw [this] at hp
          exact absurd hp (by simp)

/-- **C4** counterexample: on columns `["total", "revenue"]` with the
revenue alias list prefix `["revenue", "total"]`, the code returns
`"revenue"` (first *candidate* wins), while the claim's column-major
tie-break algorithm returns `"total"`. -/
theorem c4_counterexample :
    find_column ["total", "revenue"] ["revenue", "total"] = some "revenue" ∧
    findColumnClaim ["total", "revenue"] ["revenue", "total"] = some "total" ∧
    find_column ["total", "revenue"] ["revenue", "total"] ≠
      findColumnClaim ["total", "revenue"] ["revenue", "total"] := by
  refine ⟨by decide, by decide, by decide⟩

/-- **C4** witness: the characterization applied at the concrete pair
(`["total", "revenue"]`, `["revenue", "total"]`), where stage 1 fires. -/
theorem c4_witness :
    find_column ["total", "revenue"] ["revenue", "total"] =
      findColumnCandMajor ["total", "revenue"] ["revenue", "total"] :=
  (c4_matcher_algorithm ["total", "revenue"] ["revenue", "total"]).1

section InferLemmas

/-- The fold of `infer_schema` only ever appends keys drawn from the
remaining alias-table entries. -/
theorem infer_foldl_keys (names : List String) :
    ∀ (l : List (String × List String)) (acc : Schema),
      ((l.foldl (fun found kv =>
          match find_column names kv.2 with
          | some c => found ++ [(kv.1, c)]
          | none => found) acc).map Prod.fst).Sublist
        (acc.map Prod.fst ++ l.map Prod.fst) := by
  intro l
  induction l with
  | nil =>
      intro acc
      simp
  | cons kv rest ih =>
      intro acc
      rw [List.foldl_cons]
      cases h : find_column names kv.2 with
      | none =>
          refine (ih acc).trans ?_
          rw [List.map_cons]
          exact (List.append_sublist_append_left _).mpr (List.sublist_cons_self _ _)
      | some c =>
          refine (ih (acc ++ [(kv.1, c)])).trans ?_
          rw [List.map_append, List.map_cons]
          simp

end InferLemmas

/-- **C3** (amended): the inferred mapping binds each canonical key at
most once (its key list is duplicate-free), but the matcher does *not*
prevent two distinct canonical keys from sharing one concrete column:
on a table with the single column `"cost_price"`, `cost` grabs it by
exact alias match and `price` grabs the same column by substring
match. -/
theorem c3_inferred_mapping (d : DF) :
    ((infer_schema d).map Prod.fst).Nodup ∧
    sget (infer_schema ⟨[("cost_price", [])]⟩) "cost" = some "cost_price" ∧
    sget (infer_schema ⟨[("cost_price", [])]⟩) "price" = some "cost_price" ∧
    ("cost" : String) ≠ "price" := by
  refine ⟨?_, by decide, by decide, by decide⟩
  have h := infer_foldl_keys d.names COL_ALIASES []
  simp only [List.map_nil, List.nil_append] at h
  exact List.Nodup.sublist h (by decide)

/-- **C3** counterexample: two distinct canonical keys of one inferred
mapping sharing one concrete column, falsifying the claim that inferred
mappings never share a column between two canonical fields. -/
theorem c3_counterexample :
    ∃ k1 k2 c, k1 ≠ k2 ∧
      sget (infer_schema ⟨[("cost_price", [])]⟩) k1 = some c ∧
      sget (infer_schema ⟨[("cost_price", [])]⟩) k2 = some c :=
  ⟨"cost", "price", "cost_price", by decide, by decide, by decide⟩

section MergeLemmas

theorem mergeStep_sget_ne (d : DF) (s : Schema) (kv : String × Option String) (k : String)
    (h : kv.1 ≠ k) : sget (mergeStep d s kv) k = sget s k := by
  have hk : k ≠ kv.1 := fun hh => h hh.symm
  obtain ⟨k1, v1⟩ := kv
  cases v1 with
  | none =>
      dsimp only [mergeStep]
      exact sget_spop_ne s k1 k hk
  | some v =>
      dsimp only [mergeStep]
      by_cases hv : v = "None"
      · rw [if_pos hv]
        exact sget_spop_ne s k1 k hk
      · by_cases hc : d.hasCol v
        · rw [if_neg hv, if_pos hc]
          exact sget_sset_ne s k1 v k hk
        · rw [if_neg hv, if_neg hc]

theorem mergeUser_not_mentioned (d : DF) (user : List (String × Option String)) (k : String)
    (h : ∀ kv ∈ user, kv.1 ≠ k) :
    ∀ base : Schema, sget (mergeUser base user d) k = sget base k := by
  induction user with
  | nil => intro base; rfl
  | cons kv rest ih =>
      intro base
      rw [mergeUser, List.foldl_cons]
      have step1 := ih (fun kv' hm => h kv' (List.mem_cons_of_mem _ hm)) (mergeStep d base kv)
      rw [mergeUser] at step1
      rw [step1]
      exact mergeStep_sget_ne d base kv k (h kv (List.mem_cons_self _ _))

end MergeLemmas

/-- **C8** (amended): merging a user schema over the inferred baseline:
a key mapped to a column present in the table replaces the baseline for
that field; a key explicitly marked unset (`None` or `"None"`) removes
the canonical field from the mapping entirely; a key not mentioned
leaves the baseline untouched; and a key naming a column *not* present
in the table causes that user override to be ignored with a warning —
the baseline mapping for that field, if any, is *retained*, not dropped
— while cleaning proceeds without aborting. -/
theorem c8_merge_semantics (base : Schema) (user : List (String × Option String))
    (d : DF) (k : String) (hu : (user.map Prod.fst).Nodup) :
    sget (mergeUser base user d) k =
      match user.find? (fun kv => kv.1 = k) with
      | none => sget base k
      | some (_, none) => none
      | some (_, some v) =>
          if v = "None" then none
          else if d.hasCol v then some v
          else sget base k := by
  induction user generalizing base with
  | nil => rfl
  | cons kv rest ih =>
      obtain ⟨k1, v1⟩ := kv
      simp only [List.map_cons] at hu
      rw [List.nodup_cons] at hu
      obtain ⟨hnotmem, hnodup⟩ := hu
      rw [mergeUser, List.foldl_cons]
      have hfoldl : List.foldl (mergeStep d) (mergeStep d base (k1, v1)) rest =
          mergeUser (mergeStep d base (k1, v1)) rest d := rfl
      rw [hfoldl]
      by_cases hk : k1 = k
      · rw [List.find?_cons_of_pos _ (by simpa using hk)]
        have hnotin : ∀ kv' ∈ rest, kv'.1 ≠ k := by
          intro kv' hm hq
          exact hnotmem (List.mem_map.mpr ⟨kv', hm, by rw [hq, ← hk]⟩)
        rw [mergeUser_not_mentioned d rest k hnotin (mergeStep d base (k1, v1))]
        cases v1 with
        | none =>
            dsimp only [mergeStep]
            rw [hk]
            exact sget_spop_self base k
        | some v =>
            dsimp only [mergeStep]
            by_cases hv : v = "None"
            · rw [if_pos hv, if_pos hv, hk]
              exact sget_spop_self base k
            · by_cases hc : d.hasCol v
              · rw [if_neg hv, if_neg hv, if_pos hc, if_pos hc, hk]
                exact sget_sset_self base k v
              · rw [if_neg hv, if_neg hv, if_neg hc, if_neg hc]
      · rw [List.find?_cons_of_neg _ (by simpa using hk)]
        rw [ih (mergeStep d base (k1, v1)) hnodup]
        have hne : (k1, v1).1 ≠ k := hk
        cases hfind : rest.find? (fun kv => kv.1 = k) with
        | none => exact mergeStep_sget_ne d base (k1, v1) k hne
        | some kv' =>
            obtain ⟨k2, v2⟩ := kv'
            cases v2 with
            | none => rfl
            | some v =>
                dsimp only
                by_cases hv : v = "None"
                · rw [if_pos hv, if_pos hv]
                · by_cases hc : d.hasCol v
                  · rw [if_neg hv, if_neg hv, if_pos hc, if_pos hc]
                  · rw [if_neg hv, if_neg hv, if_neg hc, if_neg hc]
                    exact mergeStep_sget_ne d base (k1, v1) k hne

/-- The one-column table used in several concrete counterexamples: its
only column `"total"` is matched by schema inference as `revenue`. -/
def dfTotalOnly : DF := ⟨[("total", [Value.num 5])]⟩

/-- **C8** counterexample: the inferred baseline maps `revenue` to
`"total"`; a user override naming the missing column `"missing_col"`
leaves that baseline mapping in place — the field's mapping is *not*
dropped from the schema as the claim states. -/
theorem c8_counterexample :
    sget (infer_schema dfTotalOnly) "revenue" = some "total" ∧
    sget (mergeUser (infer_schema dfTotalOnly) [("revenue", some "missing_col")] dfTotalOnly)
        "revenue" = some "total" ∧
    ¬ sget (mergeUser (infer_schema dfTotalOnly) [("revenue", some "missing_col")] dfTotalOnly)
        "revenue" = none := by
  refine ⟨by decide, by decide, by decide⟩

/-- **C8** witness: the merge characterization applied to the concrete
baseline `{revenue: "total"}` with the override `{revenue:
"missing_col"}`. -/
theorem c8_witness :
    (([("revenue", some "missing_col")] : List (String × Option String)).map Prod.fst).Nodup ∧
    sget (mergeUser (infer_schema dfTotalOnly)
        [("revenue", some "missing_col")] dfTotalOnly) "revenue" =
      match ([("revenue", some "missing_col")] : List (String × Option String)).find?
          (fun kv => kv.1 = "revenue") with
      | none => sget (infer_schema dfTotalOnly) "revenue"
      | some (_, none) => none
      | some (_, some v) =>
          if v = "None" then none
          else if dfTotalOnly.hasCol v then some v
          else sget (infer_schema dfTotalOnly) "revenue" :=
  ⟨by decide, c8_merge_semantics _ _ _ _ (by decide)⟩

section StageSchemaLemmas

theorem coerceStage_snd (x : DF × Schema) : (coerceStage x).2 = x.2 := rfl

theorem revenueSynth_sget (x : DF × Schema) (k : String) (h : k ≠ "revenue") :
    sget (revenueSynth x).2 k = sget x.2 k := by
  unfold revenueSynth
  dsimp only
  by_cases hr : resolves x.2 x.1 "revenue"
  · rw [if_pos hr]
  · rw [if_neg hr]
    cases hp : sget x.2 "price" with
    | none => rfl
    | some pc =>
        cases hq : sget x.2 "quantity" with
        | none => rfl
        | some qc =>
            dsimp only
            by_cases hc : x.1.hasCol pc && x.1.hasCol qc
            · rw [if_pos hc]
              exact sget_sset_ne x.2 "revenue" "revenue__computed" k h
            · rw [if_neg hc]

theorem costSynth_sget (x : DF × Schema) (k : String) (h : k ≠ "cost_total") :
    sget (costSynth x).2 k = sget x.2 k := by
  unfold costSynth
  dsimp only
  cases hp : sget x.2 "cost" with
  | none => rfl
  | some cc =>
      cases hq : sget x.2 "quantity" with
      | none => rfl
      | some qc =>
          dsimp only
          by_cases hc : x.1.hasCol cc && x.1.hasCol qc
          · rw [if_pos hc]
            exact sget_sset_ne x.2 "cost_total" "cost__computed" k h
          · rw [if_neg hc]

theorem profitMarginStage_snd (x : DF × Schema) : (profitMarginStage x).2 = x.2 := by
  unfold profitMarginStage
  dsimp only
  cases h1 : sget x.2 "revenue" with
  | none =>
      cases h2 : costColOf x.2 <;> rfl
  | some rc =>
      cases h2 : costColOf x.2 with
      | none => rfl
      | some cc =>
          dsimp only
          simp only [apply_ite Prod.snd, ite_self]

theorem quantityInferStage_sget (x : DF × Schema) (k : String) (h : k ≠ "quantity") :
    sget (quantityInferStage x).2 k = sget x.2 k := by
  unfold quantityInferStage
  dsimp only
  by_cases hr : resolves x.2 x.1 "quantity"
  · rw [if_pos hr]
  · rw [if_neg hr]
    cases hp : sget x.2 "price" with
    | none => rfl
    | some pc =>
        cases hq : sget x.2 "revenue" with
        | none => rfl
        | some rc =>
            dsimp only
            by_cases hc : x.1.hasCol pc && x.1.hasCol rc
            · rw [if_pos hc]
              exact sget_sset_ne x.2 "quantity" "quantity__inferred" k h
            · rw [if_neg hc]

end StageSchemaLemmas

/-- **C7** (amended): `compute_derived` copies the frame (the caller's
table is unchanged), but it is *not* pure in its second argument: the
schema dict is mutated in place to register the synthesized fields — the
post-state of the dict differs from the input exactly on the keys
`revenue`, `cost_total` and `quantity`; every other key's mapping is
left untouched. -/
theorem c7_schema_mutation_scope (d : DF) (s : Schema) (k : String)
    (h1 : k ≠ "revenue") (h2 : k ≠ "cost_total") (h3 : k ≠ "quantity") :
    sget (compute_derived d s).2 k = sget s k := by
  unfold compute_derived
  rw [quantityInferStage_sget _ k h3, profitMarginStage_snd, costSynth_sget _ k h2,
    revenueSynth_sget _ k h1, coerceStage_snd]

/-- The concrete frame and schema of the C7 counterexample: price and
quantity are mapped, revenue is not, so `compute_derived` registers the
synthesized `revenue__computed` into the caller's schema dict. -/
def dfPriceQty : DF := ⟨[("price", [Value.num 2]), ("qty", [Value.num 3])]⟩

/-- The schema paired with `dfPriceQty`. -/
def schPriceQty : Schema := [("price", "price"), ("quantity", "qty")]

/-- **C7** counterexample: calling the Derivation Engine on a table with
mapped price and quantity but no revenue leaves the schema argument
changed — `revenue ↦ revenue__computed` is registered into the caller's
dict — so `derive` does not leave its arguments unchanged. -/
theorem c7_counterexample :
    sget schPriceQty "revenue" = none ∧
    sget (compute_derived dfPriceQty schPriceQty).2 "revenue" = some "revenue__computed" ∧
    (compute_derived dfPriceQty schPriceQty).2 ≠ schPriceQty := by
  refine ⟨by decide, by decide, by decide⟩

/-- **C7** witness: the mutation-scope theorem applied at the concrete
input for the untouched key `price`. -/
theorem c7_witness :
    (("price" : String) ≠ "revenue" ∧ ("price" : String) ≠ "cost_total" ∧
      ("price" : String) ≠ "quantity") ∧
    sget (compute_derived dfPriceQty schPriceQty).2 "price" = sget schPriceQty "price" :=
  ⟨⟨by decide, by decide, by decide⟩,
    c7_schema_mutation_scope dfPriceQty schPriceQty "price" (by decide) (by decide) (by decide)⟩

section ProfitLemmas

theorem getCol_of_hasCol (d : DF) (n : String) (h : d.hasCol n = true) :
    ∃ vs, d.getCol n = some vs := by
  rw [hasCol_eq_isSome] at h
  exact Option.isSome_iff_exists.mp h

theorem coerceVal_idem (v : Value) : coerceVal (coerceVal v) = coerceVal v := by
  cases v with
  | str s =>
      cases hp : parseRat (stripNonNum s) with
      | none => simp only [coerceVal, hp]
      | some q => simp only [coerceVal, hp]
  | null => rfl
  | num q => rfl
  | dateV t => rfl
  | infVal => rfl

theorem coerce_numeric_idem (l : List Value) :
    coerce_numeric (coerce_numeric l) = coerce_numeric l := by
  unfold coerce_numeric
  rw [List.map_map]
  exact List.map_congr_left (fun a _ => coerceVal_idem a)

theorem coerceIfPresent_hasCol (d : DF) (oc : Option String) (m : String) :
    (coerceIfPresent d oc).hasCol m = d.hasCol m := by
  cases oc with
  | none => rfl
  | some c =>
      simp only [coerceIfPresent]
      by_cases h : d.hasCol c
      · rw [if_pos h, hasCol_updateCol]
      · rw [if_neg h]

theorem coerceIfPresent_getCol_ne (d : DF) (oc : Option String) (m : String)
    (h : oc ≠ some m) : (coerceIfPresent d oc).getCol m = d.getCol m := by
  cases oc with
  | none => rfl
  | some c =>
      have hcm : m ≠ c := fun hh => h (by rw [hh])
      simp only [coerceIfPresent]
      by_cases hc : d.hasCol c
      · rw [if_pos hc]
        exact getCol_updateCol_ne d c coerce_numeric m hcm
      · rw [if_neg hc]

theorem coerceIfPresent_getCol_self (d : DF) (c : String) (vs : List Value)
    (h : d.getCol c = some vs) :
    (coerceIfPresent d (some c)).getCol c = some (coerce_numeric vs) := by
  simp only [coerceIfPresent]
  have hc : d.hasCol c = true := by rw [hasCol_eq_isSome, h]; rfl
  rw [if_pos hc]
  exact getCol_updateCol_self d c coerce_numeric vs h

theorem coercePair_getCol (d : DF) (rc cc : String) (vr vc : List Value)
    (hvr : d.getCol rc = some vr) (hvc : d.getCol cc = some vc) :
    (coerceIfPresent (coerceIfPresent d (some rc)) (some cc)).getCol rc
        = some (coerce_numeric vr) ∧
    (coerceIfPresent (coerceIfPresent d (some rc)) (some cc)).getCol cc
        = some (coerce_numeric vc) := by
  by_cases heq : cc = rc
  · subst heq
    rw [hvr] at hvc
    have hvv : vr = vc := by injection hvc
    subst hvv
    have h1 := coerceIfPresent_getCol_self d cc vr hvr
    have h2 := coerceIfPresent_getCol_self (coerceIfPresent d (some cc)) cc
      (coerce_numeric vr) h1
    rw [coerce_numeric_idem] at h2
    exact ⟨h2, h2⟩
  · constructor
    · rw [coerceIfPresent_getCol_ne _ (some cc) rc (by simp [heq])]
      exact coerceIfPresent_getCol_self d rc vr hvr
    · have hinner : (coerceIfPresent d (some rc)).getCol cc = some vc := by
        rw [coerceIfPresent_getCol_ne d (some rc) cc (by simp; exact fun hh => heq hh.symm)]
        exact hvc
      exact coerceIfPresent_getCol_self _ cc vc hinner

theorem nullProfitMargin_profit (d : DF) :
    (nullProfitMargin d).getCol "profit" = some (List.replicate d.nrows Value.null) := by
  unfold nullProfitMargin
  rw [getCol_setCol_ne _ "margin" _ "profit" (by decide)]
  exact getCol_setCol_self _ _ _

theorem nullProfitMargin_margin (d : DF) :
    (nullProfitMargin d).getCol "margin" = some (List.replicate d.nrows Value.null) := by
  unfold nullProfitMargin
  exact getCol_setCol_self _ _ _

theorem computedProfitMargin_profit (d2 : DF) (rc cc : String) :
    (computedProfitMargin d2 rc cc).getCol "profit" =
      some (List.zipWith Value.vSub
        (((d2.getCol rc).getD []).map (Value.fillnaV (Value.num 0)))
        (((d2.getCol cc).getD []).map (Value.fillnaV (Value.num 0)))) := by
  unfold computedProfitMargin
  dsimp only
  rw [getCol_setCol_ne _ "margin" _ "profit" (by decide)]
  exact getCol_setCol_self _ _ _

theorem computedProfitMargin_margin (d2 : DF) (rc cc : String) (hrp : rc ≠ "profit") :
    (computedProfitMargin d2 rc cc).getCol "margin" =
      some (List.zipWith safe_margin ((d2.getCol rc).getD [])
        (List.zipWith Value.vSub
          (((d2.getCol rc).getD []).map (Value.fillnaV (Value.num 0)))
          (((d2.getCol cc).getD []).map (Value.fillnaV (Value.num 0))))) := by
  unfold computedProfitMargin
  dsimp only
  rw [getCol_setCol_self, getCol_setCol_ne _ "profit" _ rc hrp, getCol_setCol_self]
  simp only [Option.getD_some]

theorem computedProfitMargin_getCol_other (d2 : DF) (rc cc m : String)
    (h1 : m ≠ "profit") (h2 : m ≠ "margin") :
    (computedProfitMargin d2 rc cc).getCol m = d2.getCol m := by
  unfold computedProfitMargin
  dsimp only
  rw [getCol_setCol_ne _ "margin" _ m h2, getCol_setCol_ne _ "profit" _ m h1]

theorem profitReady_true_iff (d : DF) (s : Schema) :
    profitReady d s = true ↔
      ∃ rc cc, sget s "revenue" = some rc ∧ costColOf s = some cc ∧
        d.hasCol rc = true ∧ d.hasCol cc = true := by
  unfold profitReady
  cases h1 : sget s "revenue" <;> cases h2 : costColOf s <;> simp

theorem profitMarginStage_ready (d : DF) (s : Schema) (rc cc : String)
    (hr : sget s "revenue" = some rc) (hc : costColOf s = some cc)
    (hrc : d.hasCol rc = true) (hcc : d.hasCol cc = true) :
    (profitMarginStage (d, s)).1 =
      computedProfitMargin (coerceIfPresent (coerceIfPresent d (some rc)) (some cc)) rc cc := by
  unfold profitMarginStage
  dsimp only
  rw [hr, hc]
  dsimp only
  rw [if_pos]
  rw [coerceIfPresent_hasCol, coerceIfPresent_hasCol, coerceIfPresent_hasCol,
    coerceIfPresent_hasCol, hrc, hcc]
  rfl

theorem profitMarginStage_null (d : DF) (s : Schema) (h : profitReady d s = false) :
    (profitMarginStage (d, s)).1 =
      nullProfitMargin (coerceIfPresent (coerceIfPresent d (sget s "revenue")) (costColOf s)) := by
  unfold profitMarginStage
  dsimp only
  cases hr : sget s "revenue" with
  | none => cases hcc : costColOf s <;> rfl
  | some rc =>
      cases hcc : costColOf s with
      | none => rfl
      | some cc =>
          have hg : (d.hasCol rc && d.hasCol cc) = false := by
            unfold profitReady at h
            rw [hr, hcc] at h
            exact h
          dsimp only
          have hcond : ((coerceIfPresent (coerceIfPresent d (some rc)) (some cc)).hasCol rc &&
              (coerceIfPresent (coerceIfPresent d (some rc)) (some cc)).hasCol cc) = false := by
            rw [coerceIfPresent_hasCol, coerceIfPresent_hasCol, coerceIfPresent_hasCol,
              coerceIfPresent_hasCol]
            exact hg
          rw [if_neg (by simp [hcond])]

theorem safe_margin_null_rev (p : Value) : safe_margin Value.null p = Value.null := by
  unfold safe_margin
  rw [if_neg (by decide)]
  cases p <;> rfl

theorem safe_margin_zero_rev (p : Value) : safe_margin (Value.num 0) p = Value.null := by
  unfold safe_margin
  rw [if_pos rfl]

theorem safe_margin_ne_inf (rev p : Value) (h : p ≠ Value.infVal) :
    safe_margin rev p ≠ Value.infVal := by
  unfold safe_margin
  by_cases hz : rev = Value.num 0
  · rw [if_pos hz]
    simp
  · rw [if_neg hz]
    cases p with
    | null => cases rev <;> simp [Value.vDiv]
    | num a =>
        cases rev with
        | null => simp [Value.vDiv]
        | num b =>
            have hb : b ≠ 0 := fun hh => hz (by rw [hh])
            simp [Value.vDiv, hb]
        | str t => simp [Value.vDiv]
        | dateV t => simp [Value.vDiv]
        | infVal => simp [Value.vDiv]
    | str t => cases rev <;> simp [Value.vDiv]
    | dateV t => cases rev <;> simp [Value.vDiv]
    | infVal => exact absurd rfl h

end ProfitLemmas

/-- The concrete frame of the C1/C6 examples: a revenue column and a
per-unit cost column, no quantity. -/
def dfRevCost : DF := ⟨[("revenue", [Value.num 10]), ("cost", [Value.num 3])]⟩

/-- The schema paired with `dfRevCost`: revenue and per-unit cost
mapped, quantity unmapped, so no `cost_total` is ever synthesized. -/
def schRevCost : Schema := [("revenue", "revenue"), ("cost", "cost")]

/-- **C1** (amended): in the profit step the cost column is
`schema.get("cost_total") or schema.get("cost")` — when no `cost_total`
was synthesized the *per-unit* cost mapping is used in its place.
Profit is `revenue.fillna(0) - cost.fillna(0)` over the coerced
resolved revenue column and that fallback cost column whenever both
exist; only when revenue or both cost mappings fail to resolve are
profit and margin null for every row. -/
theorem c1_profit_cost_fallback (d : DF) (s : Schema) :
    (profitReady d s = false →
      (∀ v ∈ ((profitMarginStage (d, s)).1.getCol "profit").getD [], v = Value.null) ∧
      (∀ v ∈ ((profitMarginStage (d, s)).1.getCol "margin").getD [], v = Value.null)) ∧
    (∀ rc cc vr vc, sget s "revenue" = some rc → costColOf s = some cc →
      d.getCol rc = some vr → d.getCol cc = some vc →
      (profitMarginStage (d, s)).1.getCol "profit" =
        some (List.zipWith Value.vSub
          ((coerce_numeric vr).map (Value.fillnaV (Value.num 0)))
          ((coerce_numeric vc).map (Value.fillnaV (Value.num 0))))) := by
  constructor
  · intro h
    rw [profitMarginStage_null d s h]
    constructor <;> intro v hv
    · rw [nullProfitMargin_profit] at hv
      simp only [Option.getD_some] at hv
      exact List.eq_of_mem_replicate hv
    · rw [nullProfitMargin_margin] at hv
      simp only [Option.getD_some] at hv
      exact List.eq_of_mem_replicate hv
  · intro rc cc vr vc hr hc hvr hvc
    have hrc : d.hasCol rc = true := by rw [hasCol_eq_isSome, hvr]; rfl
    have hcc : d.hasCol cc = true := by rw [hasCol_eq_isSome, hvc]; rfl
    rw [profitMarginStage_ready d s rc cc hr hc hrc hcc, computedProfitMargin_profit]
    obtain ⟨h2r, h2c⟩ := coercePair_getCol d rc cc vr vc hvr hvc
    rw [h2r, h2c]
    simp only [Option.getD_some]

/-- **C1** counterexample: with revenue and per-unit cost mapped but no
quantity (so `cost_total` is never registered), the engine still
computes `profit = 10 - 3 = 7` and `margin = 7/10` from the per-unit
cost column — profit and margin are not null as the claim requires. -/
theorem c1_counterexample :
    sget (compute_derived dfRevCost schRevCost).2 "cost_total" = none ∧
    (compute_derived dfRevCost schRevCost).1.getCol "profit" = some [Value.num (10 - 3)] ∧
    (compute_derived dfRevCost schRevCost).1.getCol "margin" =
      some [Value.num ((10 - 3) / 10)] ∧
    (10 - 3 : ℚ) = 7 ∧ Value.num (10 - 3) ≠ Value.null := by
  refine ⟨by decide, by rfl, by rfl, by norm_num, by decide⟩

/-- **C1** witness: the profit formula of the amended claim evaluated on
the concrete (revenue, per-unit cost) table. -/
theorem c1_witness :
    (sget schRevCost "revenue" = some "revenue" ∧ costColOf schRevCost = some "cost" ∧
      dfRevCost.getCol "revenue" = some [Value.num 10] ∧
      dfRevCost.getCol "cost" = some [Value.num 3]) ∧
    (profitMarginStage (dfRevCost, schRevCost)).1.getCol "profit" =
      some (List.zipWith Value.vSub
        ((coerce_numeric [Value.num 10]).map (Value.fillnaV (Value.num 0)))
        ((coerce_numeric [Value.num 3]).map (Value.fillnaV (Value.num 0)))) :=
  ⟨⟨by decide, by decide, by decide, by decide⟩,
    (c1_profit_cost_fallback dfRevCost schRevCost).2 "revenue" "cost" [Value.num 10]
      [Value.num 3] (by decide) (by decide) (by decide) (by decide)⟩

/-- The margin column of the computed branch, with its revenue input
read from the frame that already carries the new `profit` column —
exactly as the row-wise `df.apply(safe_margin, axis=1)` sees it. -/
theorem computedProfitMargin_margin_raw (d2 : DF) (rc cc : String) :
    (computedProfitMargin d2 rc cc).getCol "margin" =
      some (List.zipWith safe_margin
        (((d2.setCol "profit" (List.zipWith Value.vSub
            (((d2.getCol rc).getD []).map (Value.fillnaV (Value.num 0)))
            (((d2.getCol cc).getD []).map (Value.fillnaV (Value.num 0))))).getCol rc).getD [])
        (List.zipWith Value.vSub
          (((d2.getCol rc).getD []).map (Value.fillnaV (Value.num 0)))
          (((d2.getCol cc).getD []).map (Value.fillnaV (Value.num 0))))) := by
  unfold computedProfitMargin
  dsimp only
  rw [getCol_setCol_self, getCol_setCol_self]
  simp only [Option.getD_some]

/-- **C6** (confirmed): margins are null-safe.  When the profit step
does not run, the margin column is entirely null (this covers unmapped
revenue).  When it runs, any row whose (coerced) revenue cell is null or
zero gets a null margin — a zero revenue is caught by `safe_margin`'s
membership test, and a null revenue propagates through the division as
NaN — and the division never manufactures an infinity: a row's margin
can only be infinite when its profit cell already was. -/
theorem c6_margin_safety (d : DF) (s : Schema) :
    (profitReady d s = false →
      ∀ v ∈ ((profitMarginStage (d, s)).1.getCol "margin").getD [], v = Value.null) ∧
    (∀ rc, sget s "revenue" = some rc → rc ≠ "profit" → rc ≠ "margin" →
      ∀ i mv, (((profitMarginStage (d, s)).1.getCol "margin").getD []).get? i = some mv →
        ((((profitMarginStage (d, s)).1.getCol rc).getD []).get? i = some Value.null ∨
          (((profitMarginStage (d, s)).1.getCol rc).getD []).get? i = some (Value.num 0)) →
        mv = Value.null) ∧
    (∀ i pv mv,
      (((profitMarginStage (d, s)).1.getCol "profit").getD []).get? i = some pv →
      pv ≠ Value.infVal →
      (((profitMarginStage (d, s)).1.getCol "margin").getD []).get? i = some mv →
      mv ≠ Value.infVal) := by
  refine ⟨?_, ?_, ?_⟩
  · intro h v hv
    rw [profitMarginStage_null d s h, nullProfitMargin_margin] at hv
    simp only [Option.getD_some] at hv
    exact List.eq_of_mem_replicate hv
  · intro rc hr hrp hrm i mv hmv hrev
    by_cases hready : profitReady d s = true
    · obtain ⟨rc', cc, hr', hc', hrc', hcc'⟩ := (profitReady_true_iff d s).mp hready
      rw [hr] at hr'
      have hrcrc : rc = rc' := Option.some.inj hr'
      subst hrcrc
      rw [profitMarginStage_ready d s rc cc hr hc' hrc' hcc'] at hmv hrev
      rw [computedProfitMargin_margin _ rc cc hrp] at hmv
      rw [computedProfitMargin_getCol_other _ rc cc rc hrp hrm] at hrev
      simp only [Option.getD_some] at hmv
      rw [List.get?_zipWith_eq_some] at hmv
      obtain ⟨rev_i, p_i, hrev_i, hp_i, hsm⟩ := hmv
      cases hrev with
      | inl hnull =>
          rw [hrev_i] at hnull
          have hh : Value.null = rev_i := Option.some.inj hnull.symm
          rw [← hh] at hsm
          rw [safe_margin_null_rev] at hsm
          exact hsm.symm
      | inr hzero =>
          rw [hrev_i] at hzero
          have hh : Value.num 0 = rev_i := Option.some.inj hzero.symm
          rw [← hh] at hsm
          rw [safe_margin_zero_rev] at hsm
          exact hsm.symm
    · have hfalse : profitReady d s = false := by
        cases hb : profitReady d s
        · rfl
        · exact absurd hb hready
      rw [profitMarginStage_null d s hfalse, nullProfitMargin_margin] at hmv
      simp only [Option.getD_some] at hmv
      exact List.eq_of_mem_replicate (List.get?_mem hmv)
  · intro i pv mv hpv hpinf hmv
    by_cases hready : profitReady d s = true
    · obtain ⟨rc, cc, hr, hc, hrc, hcc⟩ := (profitReady_true_iff d s).mp hready
      rw [profitMarginStage_ready d s rc cc hr hc hrc hcc] at hpv hmv
      rw [computedProfitMargin_profit] at hpv
      rw [computedProfitMargin_margin_raw] at hmv
      simp only [Option.getD_some] at hpv hmv
      rw [List.get?_zipWith_eq_some] at hmv
      obtain ⟨rev_i, p_i, hrev_i, hp_i, hsm⟩ := hmv
      have hpp : p_i = pv := by
        rw [hp_i] at hpv
        exact Option.some.inj hpv
      rw [← hsm, hpp]
      exact safe_margin_ne_inf rev_i pv hpinf
    · have hfalse : profitReady d s = false := by
        cases hb : profitReady d s
        · rfl
        · exact absurd hb hready
      rw [profitMarginStage_null d s hfalse, nullProfitMargin_margin] at hmv
      simp only [Option.getD_some] at hmv
      have : mv = Value.null := List.eq_of_mem_replicate (List.get?_mem hmv)
      rw [this]
      simp

/-- **C6** witness: on the concrete (revenue 10, per-unit cost 3) row
the profit cell is 7 and the margin cell 7/10, which the no-infinity
part of the theorem certifies is not an infinity. -/
theorem c6_witness :
    ((((profitMarginStage (dfRevCost, schRevCost)).1.getCol "profit").getD []).get? 0 =
        some (Value.num (10 - 3)) ∧
      Value.num (10 - 3) ≠ Value.infVal ∧
      (((profitMarginStage (dfRevCost, schRevCost)).1.getCol "margin").getD []).get? 0 =
        some (Value.num ((10 - 3) / 10))) ∧
    Value.num ((10 - 3) / 10) ≠ Value.infVal :=
  ⟨⟨by rfl, by decide, by rfl⟩,
    (c6_margin_safety dfRevCost schRevCost).2.2 0 (Value.num (10 - 3))
      (Value.num ((10 - 3) / 10)) (by rfl) (by decide) (by rfl)⟩

/-- **C5** (amended): when quantity does not resolve but price and
revenue do, the engine synthesizes `quantity__inferred =
(revenue / price).round().fillna(0)` and registers it as the quantity
mapping — where `round` is numpy's round-half-to-even (banker's
rounding), so a ratio of exactly 2.5 rounds to 2, not 3. -/
theorem c5_quantity_inference (d : DF) (s : Schema) (pc rc : String)
    (hq : resolves s d "quantity" = false)
    (hp : sget s "price" = some pc) (hpc : d.hasCol pc = true)
    (hr : sget s "revenue" = some rc) (hrc : d.hasCol rc = true) :
    (quantityInferStage (d, s)).1.getCol "quantity__inferred" =
      some ((List.zipWith Value.vDiv ((d.getCol rc).getD []) ((d.getCol pc).getD [])).map
        (fun v => Value.fillnaV (Value.num 0) (Value.roundV v))) ∧
    sget (quantityInferStage (d, s)).2 "quantity" = some "quantity__inferred" := by
  unfold quantityInferStage
  dsimp only
  rw [if_neg (by simp [hq]), hp, hr]
  dsimp only
  rw [if_pos (by rw [hpc, hrc]; rfl)]
  exact ⟨getCol_setCol_self _ _ _, sget_sset_self _ _ _⟩

/-- The concrete frame of the C5 scenario: price 10, revenue 25, no
quantity column. -/
def dfPriceRev : DF := ⟨[("price", [Value.num 10]), ("revenue", [Value.num 25])]⟩

/-- The schema paired with `dfPriceRev`. -/
def schPriceRev : Schema := [("price", "price"), ("revenue", "revenue")]

/-- **C5** counterexample: for price 10 and revenue 25 the synthesized
quantity is `round(2.5)` under banker's rounding, i.e. **2** — not 3 as
the claim's scenario states. -/
theorem c5_counterexample :
    (compute_derived dfPriceRev schPriceRev).1.getCol "quantity__inferred" =
      some [Value.num (Value.roundHalfEven ((25 : ℚ) / 10))] ∧
    Value.roundHalfEven ((25 : ℚ) / 10) = 2 ∧
    ¬ ((compute_derived dfPriceRev schPriceRev).1.getCol "quantity__inferred" =
        some [Value.num 3]) := by
  have hfloor : ⌊((25 : ℚ) / 10)⌋ = 2 := by
    rw [Int.floor_eq_iff]
    norm_num
  have hround : Value.roundHalfEven ((25 : ℚ) / 10) = 2 := by
    unfold Value.roundHalfEven
    rw [hfloor]
    norm_num
  have hcell : (compute_derived dfPriceRev schPriceRev).1.getCol "quantity__inferred" =
      some [Value.num (Value.roundHalfEven ((25 : ℚ) / 10))] := by rfl
  refine ⟨hcell, hround, ?_⟩
  intro h
  rw [hcell, hround] at h
  simp only [Option.some.injEq, List.cons.injEq, Value.num.injEq, and_true] at h
  exact absurd h (by norm_num)

/-- **C5** witness: the synthesis characterization applied at the
concrete (price 10, revenue 25) table. -/
theorem c5_witness :
    (resolves schPriceRev dfPriceRev "quantity" = false ∧
      sget schPriceRev "price" = some "price" ∧ dfPriceRev.hasCol "price" = true ∧
      sget schPriceRev "revenue" = some "revenue" ∧ dfPriceRev.hasCol "revenue" = true) ∧
    ((quantityInferStage (dfPriceRev, schPriceRev)).1.getCol "quantity__inferred" =
      some ((List.zipWith Value.vDiv ((dfPriceRev.getCol "revenue").getD [])
          ((dfPriceRev.getCol "price").getD [])).map
        (fun v => Value.fillnaV (Value.num 0) (Value.roundV v))) ∧
      sget (quantityInferStage (dfPriceRev, schPriceRev)).2 "quantity" =
        some "quantity__inferred") :=
  ⟨⟨by decide, by decide, by decide, by decide, by decide⟩,
    c5_quantity_inference dfPriceRev schPriceRev "price" "revenue" (by decide) (by decide)
      (by decide) (by decide) (by decide)⟩

section FilterLemmas

theorem maskFilter_mem (m : List Bool) (vs : List Value) (v : Value)
    (h : v ∈ maskFilter m vs) : v ∈ vs := by
  induction vs generalizing m with
  | nil => cases m with
      | nil => cases h
      | cons b bs => cases b <;> cases h
  | cons w ws ih =>
      cases m with
      | nil => cases h
      | cons b bs =>
          cases b with
          | true =>
              cases h with
              | head => exact List.mem_cons_self _ _
              | tail _ hm => exact List.mem_cons_of_mem _ (ih bs hm)
          | false => exact List.mem_cons_of_mem _ (ih bs h)

theorem alook_mapVal {α β : Type _} (l : List (String × α)) (f : α → β) (k : String) :
    alook (l.map (fun p => (p.1, f p.2))) k = (alook l k).map f := by
  induction l with
  | nil => rfl
  | cons p t ih =>
      by_cases h : p.1 = k <;> simp [List.map_cons, alook_cons, h, ih]

theorem getCol_filterDF (d : DF) (m : List Bool) (c : String) :
    (filterDF d m).getCol c = (d.getCol c).map (maskFilter m) := by
  show alook (d.cols.map (fun p => (p.1, maskFilter m p.2))) c = _
  rw [alook_mapVal]
  rfl

theorem hasCol_filterDF (d : DF) (m : List Bool) (c : String) :
    (filterDF d m).hasCol c = d.hasCol c := by
  rw [hasCol_eq_isSome, hasCol_eq_isSome, getCol_filterDF]
  cases d.getCol c <;> rfl

theorem quantityInferStage_fst_cases (x : DF × Schema) :
    (quantityInferStage x).1 = x.1 ∨
    ∃ col, (quantityInferStage x).1 = x.1.setCol "quantity__inferred" col := by
  unfold quantityInferStage
  dsimp only
  by_cases hr : resolves x.2 x.1 "quantity"
  · rw [if_pos hr]
    left
    rfl
  · rw [if_neg hr]
    cases hp : sget x.2 "price" with
    | none => left; rfl
    | some pc =>
        cases hrev : sget x.2 "revenue" with
        | none => left; rfl
        | some rc =>
            dsimp only
            by_cases hc : x.1.hasCol pc && x.1.hasCol rc
            · rw [if_pos hc]
              right
              exact ⟨_, rfl⟩
            · rw [if_neg hc]
              left
              rfl

theorem quantityInferStage_getCol_ne (x : DF × Schema) (m : String)
    (h : m ≠ "quantity__inferred") :
    (quantityInferStage x).1.getCol m = x.1.getCol m := by
  rcases quantityInferStage_fst_cases x with he | ⟨col, he⟩
  · rw [he]
  · rw [he]
    exact getCol_setCol_ne _ _ _ _ h

theorem quantityInferStage_hasCol (x : DF × Schema) (m : String)
    (h : x.1.hasCol m = true) : (quantityInferStage x).1.hasCol m = true := by
  rcases quantityInferStage_fst_cases x with he | ⟨col, he⟩
  · rw [he]
    exact h
  · rw [he, hasCol_setCol, h]
    rfl

theorem profitMarginStage_fst_cases (x : DF × Schema) :
    (profitMarginStage x).1 =
        nullProfitMargin
          (coerceIfPresent (coerceIfPresent x.1 (sget x.2 "revenue")) (costColOf x.2)) ∨
    ∃ rc cc,
      (profitMarginStage x).1 =
        computedProfitMargin
          (coerceIfPresent (coerceIfPresent x.1 (sget x.2 "revenue")) (costColOf x.2)) rc cc := by
  unfold profitMarginStage
  dsimp only
  cases h1 : sget x.2 "revenue" with
  | none => cases h2 : costColOf x.2 <;> (left; rfl)
  | some rc =>
      cases h2 : costColOf x.2 with
      | none => left; rfl
      | some cc =>
          dsimp only
          by_cases hg : (coerceIfPresent (coerceIfPresent x.1 (some rc)) (some cc)).hasCol rc &&
              (coerceIfPresent (coerceIfPresent x.1 (some rc)) (some cc)).hasCol cc
          · rw [if_pos hg]
            right
            exact ⟨rc, cc, rfl⟩
          · rw [if_neg hg]
            left
            rfl

theorem nullProfitMargin_hasCol_profit (d : DF) :
    (nullProfitMargin d).hasCol "profit" = true := by
  unfold nullProfitMargin
  rw [hasCol_setCol, hasCol_setCol]
  simp

theorem nullProfitMargin_hasCol_margin (d : DF) :
    (nullProfitMargin d).hasCol "margin" = true := by
  unfold nullProfitMargin
  rw [hasCol_setCol]
  simp

theorem computedProfitMargin_hasCol_profit (d : DF) (rc cc : String) :
    (computedProfitMargin d rc cc).hasCol "profit" = true := by
  unfold computedProfitMargin
  dsimp only
  rw [hasCol_setCol, hasCol_setCol]
  simp

theorem computedProfitMargin_hasCol_margin (d : DF) (rc cc : String) :
    (computedProfitMargin d rc cc).hasCol "margin" = true := by
  unfold computedProfitMargin
  dsimp only
  rw [hasCol_setCol]
  simp

theorem profitMarginStage_hasCol_profit (x : DF × Schema) :
    (profitMarginStage x).1.hasCol "profit" = true := by
  rcases profitMarginStage_fst_cases x with he | ⟨rc, cc, he⟩
  · rw [he]
    exact nullProfitMargin_hasCol_profit _
  · rw [he]
    exact computedProfitMargin_hasCol_profit _ _ _

theorem profitMarginStage_hasCol_margin (x : DF × Schema) :
    (profitMarginStage x).1.hasCol "margin" = true := by
  rcases profitMarginStage_fst_cases x with he | ⟨rc, cc, he⟩
  · rw [he]
    exact nullProfitMargin_hasCol_margin _
  · rw [he]
    exact computedProfitMargin_hasCol_margin _ _ _

end FilterLemmas

/-- **C9** (confirmed): the cleaned table always carries both a
`profit` and a `margin` column — both branches of the profit step
assign them — and when the profit prerequisites are not resolvable at
the profit step, both columns are null in every surviving row (present
with nulls rather than absent). -/
theorem c9_profit_margin_present (P : DateParsers) (d : DF)
    (user : Option (List (String × Option String))) :
    (clean_dataframe P d user).1.hasCol "profit" = true ∧
    (clean_dataframe P d user).1.hasCol "margin" = true ∧
    (profitReady (costSynth (revenueSynth (coerceStage (cleanPreDerive P d user)))).1
        (costSynth (revenueSynth (coerceStage (cleanPreDerive P d user)))).2 = false →
      (∀ v ∈ ((clean_dataframe P d user).1.getCol "profit").getD [], v = Value.null) ∧
      (∀ v ∈ ((clean_dataframe P d user).1.getCol "margin").getD [], v = Value.null)) := by
  refine ⟨?_, ?_, ?_⟩
  · show (filterDF _ _).hasCol "profit" = true
    rw [hasCol_filterDF]
    exact quantityInferStage_hasCol _ _ (profitMarginStage_hasCol_profit _)
  · show (filterDF _ _).hasCol "margin" = true
    rw [hasCol_filterDF]
    exact quantityInferStage_hasCol _ _ (profitMarginStage_hasCol_margin _)
  · intro h
    have hnull := profitMarginStage_null
      (costSynth (revenueSynth (coerceStage (cleanPreDerive P d user)))).1
      (costSynth (revenueSynth (coerceStage (cleanPreDerive P d user)))).2 h
    constructor <;> intro v hv
    · have hcol : ((clean_dataframe P d user).1.getCol "profit") =
          (((profitMarginStage (costSynth (revenueSynth
            (coerceStage (cleanPreDerive P d user))))).1.getCol "profit").map
              (maskFilter (admitMask (cleanPreFilter P d user).1 (cleanPreFilter P d user).2))) := by
        show ((filterDF (cleanPreFilter P d user).1 _).getCol "profit") = _
        rw [getCol_filterDF]
        show ((quantityInferStage (profitMarginStage _)).1.getCol "profit").map _ = _
        rw [quantityInferStage_getCol_ne _ "profit" (by decide)]
      rw [hcol, hnull, nullProfitMargin_profit] at hv
      simp only [Option.map_some', Option.getD_some] at hv
      exact List.eq_of_mem_replicate (maskFilter_mem _ _ _ hv)
    · have hcol : ((clean_dataframe P d user).1.getCol "margin") =
          (((profitMarginStage (costSynth (revenueSynth
            (coerceStage (cleanPreDerive P d user))))).1.getCol "margin").map
              (maskFilter (admitMask (cleanPreFilter P d user).1 (cleanPreFilter P d user).2))) := by
        show ((filterDF (cleanPreFilter P d user).1 _).getCol "margin") = _
        rw [getCol_filterDF]
        show ((quantityInferStage (profitMarginStage _)).1.getCol "margin").map _ = _
        rw [quantityInferStage_getCol_ne _ "margin" (by decide)]
      rw [hcol, hnull, nullProfitMargin_margin] at hv
      simp only [Option.map_some', Option.getD_some] at hv
      exact List.eq_of_mem_replicate (maskFilter_mem _ _ _ hv)

/-- The trivial external date parsers: every parse fails (`NaT`). -/
def trivialP : DateParsers := ⟨fun _ => none, fun _ => none, fun _ => none⟩

/-- **C9** witness: the presence-and-nullness guarantee applied to the
empty upload with no user schema. -/
theorem c9_witness :
    (profitReady (costSynth (revenueSynth (coerceStage (cleanPreDerive trivialP ⟨[]⟩ none)))).1
        (costSynth (revenueSynth (coerceStage (cleanPreDerive trivialP ⟨[]⟩ none)))).2 = false) ∧
    ((clean_dataframe trivialP ⟨[]⟩ none).1.hasCol "profit" = true ∧
      (clean_dataframe trivialP ⟨[]⟩ none).1.hasCol "margin" = true) :=
  ⟨by decide,
    ⟨(c9_profit_margin_present trivialP ⟨[]⟩ none).1,
     (c9_profit_margin_present trivialP ⟨[]⟩ none).2.1⟩⟩

section MaskLemmas

/-- Row `i`'s cell of the column that canonical field `k` resolves to is
present (non-null). -/
def cellNotNull (d : DF) (s : Schema) (k : String) (i : ℕ) : Prop :=
  ∃ c col v, sget s k = some c ∧ d.getCol c = some col ∧ col.get? i = some v ∧
    v ≠ Value.null

theorem length_of_getCol_uniform (d : DF) (hu : d.uniformB = true) (c : String)
    (col : List Value) (hg : d.getCol c = some col) : col.length = d.nrows := by
  unfold DF.uniformB at hu
  rw [List.all_eq_true] at hu
  unfold DF.getCol at hg
  cases hf : d.cols.find? (fun p => p.1 = c) with
  | none => rw [hf] at hg; cases hg
  | some p =>
      rw [hf] at hg
      have hmem := List.mem_of_find?_eq_some hf
      have hlen := hu p hmem
      simp only [decide_eq_true_eq] at hlen
      have hp2 : p.2 = col := Option.some.inj hg
      rw [← hp2]
      exact hlen

theorem replicate_false_get?_ne (n i : ℕ) :
    ¬ ((List.replicate n false).get? i = some true) := by
  intro h
  rw [List.get?_eq_getElem?, List.getElem?_replicate] at h
  by_cases hi : i < n
  · rw [if_pos hi] at h
    exact absurd (Option.some.inj h) (by decide)
  · rw [if_neg hi] at h
    cases h

theorem orMask_get_some (m : List Bool) (col : List Value) (hl : col.length = m.length)
    (i : ℕ) :
    ((orMask m (some col)).get? i = some true ↔
      (m.get? i = some true ∨ ∃ v, col.get? i = some v ∧ v ≠ Value.null)) := by
  unfold orMask
  rw [List.get?_zipWith']
  by_cases hi : i < m.length
  · obtain ⟨b, hb⟩ : ∃ b, m.get? i = some b := by
      cases hmb : m.get? i with
      | none => rw [List.get?_eq_none] at hmb; omega
      | some b => exact ⟨b, rfl⟩
    obtain ⟨v, hv⟩ : ∃ v, col.get? i = some v := by
      cases hcv : col.get? i with
      | none => rw [List.get?_eq_none] at hcv; omega
      | some v => exact ⟨v, rfl⟩
    rw [hb, hv]
    simp only [Option.map_some', Option.some_bind]
    constructor
    · intro h
      have hbv : (b || v.notnaB) = true := Option.some.inj h
      have hbv' : b = true ∨ v.notnaB = true := by simpa using hbv
      rcases hbv' with h1 | h2
      · left
        rw [h1]
      · right
        refine ⟨v, rfl, ?_⟩
        intro hnull
        rw [hnull] at h2
        exact absurd h2 (by decide)
    · intro h
      rcases h with h1 | ⟨v', hv', hne⟩
      · have hbt : b = true := Option.some.inj h1
        rw [hbt]
        simp
      · have hvv : v = v' := Option.some.inj hv'
        subst hvv
        have hnn : v.notnaB = true := by
          cases v with
          | null => exact absurd rfl hne
          | num q => rfl
          | str t => rfl
          | dateV t => rfl
          | infVal => rfl
        rw [hnn]
        simp
  · have hm : m.get? i = none := List.get?_eq_none.mpr (by omega)
    have hc : col.get? i = none := List.get?_eq_none.mpr (by omega)
    rw [hm, hc]
    simp

theorem orMask_resolved (d : DF) (hu : d.uniformB = true) (s : Schema) (k : String)
    (m : List Bool) (hm : m.length = d.nrows) :
    (∀ i, ((orMask m (resolvedCol d s k)).get? i = some true ↔
      (m.get? i = some true ∨ cellNotNull d s k i))) ∧
    (orMask m (resolvedCol d s k)).length = d.nrows := by
  cases hr : resolvedCol d s k with
  | none =>
      refine ⟨fun i => ?_, hm⟩
      show m.get? i = some true ↔ _
      constructor
      · intro h
        exact Or.inl h
      · rintro (h1 | ⟨c, col, v, hc, hcol, _, _⟩)
        · exact h1
        · exfalso
          unfold resolvedCol at hr
          rw [hc] at hr
          dsimp only at hr
          rw [hcol] at hr
          cases hr
  | some col =>
      have hex : ∃ c, sget s k = some c ∧ d.getCol c = some col := by
        unfold resolvedCol at hr
        cases hs : sget s k with
        | none => rw [hs] at hr; cases hr
        | some c =>
            rw [hs] at hr
            dsimp only at hr
            exact ⟨c, rfl, hr⟩
      obtain ⟨c0, hc0, hcol0⟩ := hex
      have hlen : col.length = d.nrows := length_of_getCol_uniform d hu c0 col hcol0
      refine ⟨fun i => ?_, ?_⟩
      · rw [orMask_get_some m col (by rw [hlen, hm])]
        constructor
        · rintro (h1 | ⟨v, hv, hne⟩)
          · exact Or.inl h1
          · exact Or.inr ⟨c0, col, v, hc0, hcol0, hv, hne⟩
        · rintro (h1 | ⟨c, col', v, hc, hcol, hv, hne⟩)
          · exact Or.inl h1
          · right
            have hcc : c = c0 := by
              rw [hc] at hc0
              exact Option.some.inj hc0
            subst hcc
            have hcolcol : col' = col := by
              rw [hcol] at hcol0
              exact Option.some.inj hcol0
            subst hcolcol
            exact ⟨v, hv, hne⟩
      · show (List.zipWith _ m col).length = d.nrows
        rw [List.length_zipWith, hlen, hm]
        exact Nat.min_self _

end MaskLemmas

/-- **C2** (confirmed): a row of the cleaned table survives the
admission filter iff at least one of its resolved date, revenue or
product cells is non-null after cleaning (and the filter is exactly the
mask built by OR-ing the three presence tests over the fully derived
table).  The rectangularity hypothesis is pandas' own invariant: every
column of a DataFrame has the frame's length. -/
theorem c2_row_admission (P : DateParsers) (d : DF)
    (user : Option (List (String × Option String)))
    (hu : (cleanPreFilter P d user).1.uniformB = true) :
    clean_dataframe P d user =
      (filterDF (cleanPreFilter P d user).1
        (admitMask (cleanPreFilter P d user).1 (cleanPreFilter P d user).2),
       (cleanPreFilter P d user).2) ∧
    ∀ i : ℕ,
      ((admitMask (cleanPreFilter P d user).1 (cleanPreFilter P d user).2).get? i =
          some true ↔
        (cellNotNull (cleanPreFilter P d user).1 (cleanPreFilter P d user).2 "date" i ∨
         cellNotNull (cleanPreFilter P d user).1 (cleanPreFilter P d user).2 "revenue" i ∨
         cellNotNull (cleanPreFilter P d user).1 (cleanPreFilter P d user).2 "product" i)) := by
  refine ⟨rfl, fun i => ?_⟩
  have h0 : (List.replicate (cleanPreFilter P d user).1.nrows false).length =
      (cleanPreFilter P d user).1.nrows := List.length_replicate _ _
  have l1 := orMask_resolved (cleanPreFilter P d user).1 hu (cleanPreFilter P d user).2
    "date" _ h0
  have l2 := orMask_resolved (cleanPreFilter P d user).1 hu (cleanPreFilter P d user).2
    "revenue" _ l1.2
  have l3 := orMask_resolved (cleanPreFilter P d user).1 hu (cleanPreFilter P d user).2
    "product" _ l2.2
  show ((orMask (orMask (orMask _ _) _) _).get? i = some true ↔ _)
  rw [l3.1 i, l2.1 i, l1.1 i]
  constructor
  · rintro (((h | h) | h) | h)
    · exact absurd h (replicate_false_get?_ne _ _)
    · exact Or.inl h
    · exact Or.inr (Or.inl h)
    · exact Or.inr (Or.inr h)
  · rintro (h | h | h)
    · exact Or.inl (Or.inl (Or.inr h))
    · exact Or.inl (Or.inr h)
    · exact Or.inr h

/-- The C2 witness's external date parser: parses exactly the literal
`"d1"`. -/
def dateP2 : DateParsers :=
  ⟨fun v => match v with
    | Value.str s => if s = "d1" then some 0 else none
    | _ => none,
   fun _ => none, fun _ => none⟩

/-- The C2 witness's table: a parseable date and a revenue value in row
0; an unparseable date and a null revenue in row 1, so the mask is
`[true, false]`. -/
def dfDateAmount : DF :=
  ⟨[("date", [Value.str "d1", Value.str "zz"]),
    ("amount", [Value.num 5, Value.null])]⟩

/-- **C2** witness: the admission characterization applied to the
concrete two-row table at both row indices. -/
theorem c2_witness :
    (cleanPreFilter dateP2 dfDateAmount none).1.uniformB = true ∧
    (∀ i : ℕ,
      ((admitMask (cleanPreFilter dateP2 dfDateAmount none).1
          (cleanPreFilter dateP2 dfDateAmount none).2).get? i = some true ↔
        (cellNotNull (cleanPreFilter dateP2 dfDateAmount none).1
            (cleanPreFilter dateP2 dfDateAmount none).2 "date" i ∨
         cellNotNull (cleanPreFilter dateP2 dfDateAmount none).1
            (cleanPreFilter dateP2 dfDateAmount none).2 "revenue" i ∨
         cellNotNull (cleanPreFilter dateP2 dfDateAmount none).1
            (cleanPreFilter dateP2 dfDateAmount none).2 "product" i))) :=
  ⟨by decide, (c2_row_admission dateP2 dfDateAmount none (by decide)).2⟩

section TextColLemmas

theorem fillnaUnknown_astypeStr (w : Value) : fillnaUnknown (astypeStr w) = astypeStr w := by
  cases w <;> rfl

theorem cleanTextV_shape (w : Value) : ∃ t, cleanTextV w = Value.str (strTrim t) := by
  cases w with
  | null => exact ⟨"nan", rfl⟩
  | num q => exact ⟨ratRender q, rfl⟩
  | str s => exact ⟨s, rfl⟩
  | dateV t => exact ⟨toString t, rfl⟩
  | infVal => exact ⟨"inf", rfl⟩

theorem textTrimStep_hasCol (s : Schema) (d : DF) (k m : String) :
    (textTrimStep s d k).hasCol m = d.hasCol m := by
  unfold textTrimStep
  cases sget s k with
  | none => rfl
  | some c =>
      dsimp only
      by_cases hh : d.hasCol c
      · rw [if_pos hh, hasCol_updateCol]
      · rw [if_neg hh]

theorem textTrimStep_image (s : Schema) (d : DF) (k c : String)
    (hkc : sget s k = some c) (hhc : d.hasCol c = true) :
    ∃ l, (textTrimStep s d k).getCol c = some (List.map cleanTextV l) := by
  unfold textTrimStep
  rw [hkc]
  dsimp only
  rw [if_pos hhc]
  obtain ⟨vs, hvs⟩ := getCol_of_hasCol d c hhc
  exact ⟨vs, getCol_updateCol_self d c _ vs hvs⟩

theorem textTrimStep_preserves (s : Schema) (d : DF) (k c : String)
    (h : ∃ l, d.getCol c = some (List.map cleanTextV l)) :
    ∃ l, (textTrimStep s d k).getCol c = some (List.map cleanTextV l) := by
  obtain ⟨l, hl⟩ := h
  unfold textTrimStep
  cases hs : sget s k with
  | none => exact ⟨l, hl⟩
  | some c' =>
      dsimp only
      by_cases hh : d.hasCol c'
      · rw [if_pos hh]
        by_cases hcc : c' = c
        · subst hcc
          exact ⟨List.map cleanTextV l, getCol_updateCol_self d c' _ _ hl⟩
        · rw [getCol_updateCol_ne d c' _ c (fun h2 => hcc h2.symm)]
          exact ⟨l, hl⟩
      · rw [if_neg hh]
        exact ⟨l, hl⟩

theorem textTrimStage_image (x : DF × Schema) (k c : String)
    (hk : k = "product" ∨ k = "category" ∨ k = "order_id")
    (hkc : sget x.2 k = some c) (hhc : x.1.hasCol c = true) :
    ∃ l, (textTrimStage x).1.getCol c = some (List.map cleanTextV l) := by
  show ∃ l, (List.foldl (textTrimStep x.2) x.1 ["product", "category", "order_id"]).getCol c =
    some (List.map cleanTextV l)
  simp only [List.foldl_cons, List.foldl_nil]
  rcases hk with hk | hk | hk <;> subst hk
  · exact textTrimStep_preserves _ _ _ _ (textTrimStep_preserves _ _ _ _
      (textTrimStep_image x.2 x.1 "product" c hkc hhc))
  · refine textTrimStep_preserves _ _ _ _ (textTrimStep_image x.2 _ "category" c hkc ?_)
    rw [textTrimStep_hasCol]
    exact hhc
  · refine textTrimStep_image x.2 _ "order_id" c hkc ?_
    rw [textTrimStep_hasCol, textTrimStep_hasCol]
    exact hhc

theorem qtyFillStage_snd (x : DF × Schema) : (qtyFillStage x).2 = x.2 := by
  unfold qtyFillStage
  dsimp only
  cases hq : sget x.2 "quantity" with
  | none => rfl
  | some c =>
      dsimp only
      by_cases hh : x.1.hasCol c
      · rw [if_pos hh]
      · rw [if_neg hh]

theorem qtyFillStage_getCol_ne (x : DF × Schema) (c : String)
    (h : sget x.2 "quantity" ≠ some c) :
    (qtyFillStage x).1.getCol c = x.1.getCol c := by
  unfold qtyFillStage
  dsimp only
  cases hq : sget x.2 "quantity" with
  | none => rfl
  | some qc =>
      have hqc : qc ≠ c := fun hh => h (by rw [hq, hh])
      dsimp only
      by_cases hh : x.1.hasCol qc
      · rw [if_pos hh]
        exact getCol_updateCol_ne _ _ _ _ (fun h2 => hqc h2.symm)
      · rw [if_neg hh]

theorem coerceStep_getCol_ne (s : Schema) (d : DF) (k c : String)
    (h : sget s k ≠ some c) : (coerceStep s d k).getCol c = d.getCol c := by
  unfold coerceStep
  cases hk : sget s k with
  | none => rfl
  | some ck =>
      have hck : ck ≠ c := fun hh => h (by rw [hk, hh])
      dsimp only
      by_cases hh : d.hasCol ck
      · rw [if_pos hh]
        exact getCol_updateCol_ne _ _ _ _ (fun h2 => hck h2.symm)
      · rw [if_neg hh]

theorem coerceStage_getCol_ne (x : DF × Schema) (c : String)
    (h : ∀ k' ∈ (["quantity", "price", "revenue", "cost"] : List String),
      sget x.2 k' ≠ some c) :
    (coerceStage x).1.getCol c = x.1.getCol c := by
  show (List.foldl (coerceStep x.2) x.1 ["quantity", "price", "revenue", "cost"]).getCol c = _
  simp only [List.foldl_cons, List.foldl_nil]
  rw [coerceStep_getCol_ne _ _ _ _ (h "cost" (by decide)),
    coerceStep_getCol_ne _ _ _ _ (h "revenue" (by decide)),
    coerceStep_getCol_ne _ _ _ _ (h "price" (by decide)),
    coerceStep_getCol_ne _ _ _ _ (h "quantity" (by decide))]

theorem revenueSynth_cases (x : DF × Schema) :
    revenueSynth x = x ∨
    ∃ col, revenueSynth x =
      (x.1.setCol "revenue__computed" col, sset x.2 "revenue" "revenue__computed") := by
  unfold revenueSynth
  dsimp only
  by_cases hr : resolves x.2 x.1 "revenue"
  · rw [if_pos hr]
    left
    rfl
  · rw [if_neg hr]
    cases hp : sget x.2 "price" with
    | none => left; rfl
    | some pc =>
        cases hq : sget x.2 "quantity" with
        | none => left; rfl
        | some qc =>
            dsimp only
            by_cases hc : x.1.hasCol pc && x.1.hasCol qc
            · rw [if_pos hc]
              right
              exact ⟨_, rfl⟩
            · rw [if_neg hc]
              left
              rfl

theorem costSynth_cases (x : DF × Schema) :
    costSynth x = x ∨
    ∃ col, costSynth x =
      (x.1.setCol "cost__computed" col, sset x.2 "cost_total" "cost__computed") := by
  unfold costSynth
  dsimp only
  cases hp : sget x.2 "cost" with
  | none => left; rfl
  | some cc =>
      cases hq : sget x.2 "quantity" with
      | none => left; rfl
      | some qc =>
          dsimp only
          by_cases hc : x.1.hasCol cc && x.1.hasCol qc
          · rw [if_pos hc]
            right
            exact ⟨_, rfl⟩
          · rw [if_neg hc]
            left
            rfl

theorem revenueSynth_getCol_ne (x : DF × Schema) (c : String)
    (h : c ≠ "revenue__computed") : (revenueSynth x).1.getCol c = x.1.getCol c := by
  rcases revenueSynth_cases x with he | ⟨col, he⟩
  · rw [he]
  · rw [he]
    exact getCol_setCol_ne _ _ _ _ h

theorem costSynth_getCol_ne (x : DF × Schema) (c : String)
    (h : c ≠ "cost__computed") : (costSynth x).1.getCol c = x.1.getCol c := by
  rcases costSynth_cases x with he | ⟨col, he⟩
  · rw [he]
  · rw [he]
    exact getCol_setCol_ne _ _ _ _ h

theorem revenueSynth_sget_revenue_cases (x : DF × Schema) :
    sget (revenueSynth x).2 "revenue" = sget x.2 "revenue" ∨
    sget (revenueSynth x).2 "revenue" = some "revenue__computed" := by
  rcases revenueSynth_cases x with he | ⟨col, he⟩
  · rw [he]
    left
    rfl
  · rw [he]
    right
    exact sget_sset_self _ _ _

theorem costSynth_sget_ct_cases (x : DF × Schema) :
    sget (costSynth x).2 "cost_total" = sget x.2 "cost_total" ∨
    sget (costSynth x).2 "cost_total" = some "cost__computed" := by
  rcases costSynth_cases x with he | ⟨col, he⟩
  · rw [he]
    left
    rfl
  · rw [he]
    right
    exact sget_sset_self _ _ _

theorem profitMarginStage_getCol_ne (x : DF × Schema) (c : String)
    (h1 : sget x.2 "revenue" ≠ some c) (h2 : costColOf x.2 ≠ some c)
    (h3 : c ≠ "profit") (h4 : c ≠ "margin") :
    (profitMarginStage x).1.getCol c = x.1.getCol c := by
  rcases profitMarginStage_fst_cases x with he | ⟨rc, cc, he⟩
  · rw [he]
    unfold nullProfitMargin
    rw [getCol_setCol_ne _ _ _ _ h4, getCol_setCol_ne _ _ _ _ h3,
      coerceIfPresent_getCol_ne _ _ _ h2, coerceIfPresent_getCol_ne _ _ _ h1]
  · rw [he]
    rw [computedProfitMargin_getCol_other _ _ _ _ h3 h4,
      coerceIfPresent_getCol_ne _ _ _ h2, coerceIfPresent_getCol_ne _ _ _ h1]

end TextColLemmas

/-- **C10** (amended): a mapped product/category/order_id column does
come out of the pipeline as non-null, whitespace-trimmed strings (nulls
having become string renderings such as `"nan"`, with the `"Unknown"`
fill dead because string conversion happens first) — *provided* that
column is not also claimed by a numerically coerced canonical field
(quantity, price, revenue, cost, or a user-supplied cost_total) and is
not one of the engine's own output column names; aliasing a text field
with a numeric one re-coerces the stringified cells back to numbers and
nulls, breaking the guarantee. -/
theorem c10_text_columns (P : DateParsers) (d : DF)
    (user : Option (List (String × Option String))) (k c : String)
    (hk : k = "product" ∨ k = "category" ∨ k = "order_id")
    (hmap : sget (cleanToDate P d user).2 k = some c)
    (hhas : (cleanToDate P d user).1.hasCol c = true)
    (hnum : ∀ k' ∈ (["quantity", "price", "revenue", "cost", "cost_total"] : List String),
      sget (cleanToDate P d user).2 k' ≠ some c)
    (hspecial : c ∉ (["revenue__computed", "cost__computed", "quantity__inferred",
      "profit", "margin"] : List String)) :
    (∀ v ∈ ((clean_dataframe P d user).1.getCol c).getD [],
      ∃ t, v = Value.str (strTrim t)) ∧
    ∀ w, fillnaUnknown (astypeStr w) = astypeStr w := by
  have hs1 : c ≠ "revenue__computed" := fun hh => hspecial (by rw [hh]; decide)
  have hs2 : c ≠ "cost__computed" := fun hh => hspecial (by rw [hh]; decide)
  have hs3 : c ≠ "quantity__inferred" := fun hh => hspecial (by rw [hh]; decide)
  have hs4 : c ≠ "profit" := fun hh => hspecial (by rw [hh]; decide)
  have hs5 : c ≠ "margin" := fun hh => hspecial (by rw [hh]; decide)
  obtain ⟨l, hl⟩ := textTrimStage_image (cleanToDate P d user) k c hk hmap hhas
  have hql : (cleanPreDerive P d user).1.getCol c = some (List.map cleanTextV l) := by
    show (qtyFillStage (textTrimStage (cleanToDate P d user))).1.getCol c = _
    rw [qtyFillStage_getCol_ne (textTrimStage (cleanToDate P d user)) c
      (hnum "quantity" (by decide))]
    exact hl
  have hsPre : (cleanPreDerive P d user).2 = (cleanToDate P d user).2 := by
    show (qtyFillStage (textTrimStage (cleanToDate P d user))).2 = _
    rw [qtyFillStage_snd]
    rfl
  have hcoerce : (coerceStage (cleanPreDerive P d user)).1.getCol c =
      some (List.map cleanTextV l) := by
    rw [coerceStage_getCol_ne _ c ?hcn]
    · exact hql
    case hcn =>
      intro k' hk'
      show sget (cleanPreDerive P d user).2 k' ≠ some c
      rw [hsPre]
      have hk5 : k' ∈ (["quantity", "price", "revenue", "cost", "cost_total"] :
          List String) := by
        simp only [List.mem_cons, List.not_mem_nil, or_false] at hk' ⊢
        tauto
      exact hnum k' hk5
  have hx0s : (coerceStage (cleanPreDerive P d user)).2 = (cleanToDate P d user).2 := by
    rw [coerceStage_snd, hsPre]
  have hr1 : (revenueSynth (coerceStage (cleanPreDerive P d user))).1.getCol c =
      some (List.map cleanTextV l) := by
    rw [revenueSynth_getCol_ne _ c hs1]
    exact hcoerce
  have hrev1 : sget (revenueSynth (coerceStage (cleanPreDerive P d user))).2 "revenue" ≠
      some c := by
    rcases revenueSynth_sget_revenue_cases (coerceStage (cleanPreDerive P d user)) with
      hcase | hcase
    · rw [hcase, hx0s]
      exact hnum "revenue" (by decide)
    · rw [hcase]
      intro hh
      exact hs1 (Option.some.inj hh).symm
  have hct1 : sget (revenueSynth (coerceStage (cleanPreDerive P d user))).2 "cost_total" ≠
      some c := by
    rw [revenueSynth_sget _ "cost_total" (by decide), coerceStage_snd, hsPre]
    exact hnum "cost_total" (by decide)
  have hcost1 : sget (revenueSynth (coerceStage (cleanPreDerive P d user))).2 "cost" ≠
      some c := by
    rw [revenueSynth_sget _ "cost" (by decide), coerceStage_snd, hsPre]
    exact hnum "cost" (by decide)
  have hr2 : (costSynth (revenueSynth (coerceStage (cleanPreDerive P d user)))).1.getCol c =
      some (List.map cleanTextV l) := by
    rw [costSynth_getCol_ne _ c hs2]
    exact hr1
  have hrev2 : sget (costSynth (revenueSynth (coerceStage
      (cleanPreDerive P d user)))).2 "revenue" ≠ some c := by
    rw [costSynth_sget _ "revenue" (by decide)]
    exact hrev1
  have hct2 : sget (costSynth (revenueSynth (coerceStage
      (cleanPreDerive P d user)))).2 "cost_total" ≠ some c := by
    rcases costSynth_sget_ct_cases (revenueSynth (coerceStage (cleanPreDerive P d user)))
      with hcase | hcase
    · rw [hcase]
      exact hct1
    · rw [hcase]
      intro hh
      exact hs2 (Option.some.inj hh).symm
  have hcost2 : sget (costSynth (revenueSynth (coerceStage
      (cleanPreDerive P d user)))).2 "cost" ≠ some c := by
    rw [costSynth_sget _ "cost" (by decide)]
    exact hcost1
  have hccol2 : costColOf (costSynth (revenueSynth (coerceStage
      (cleanPreDerive P d user)))).2 ≠ some c := by
    unfold costColOf
    cases hot : sget (costSynth (revenueSynth (coerceStage
        (cleanPreDerive P d user)))).2 "cost_total" with
    | some v =>
        intro hcon
        have hvc : some v = some c := hcon
        exact hct2 (by rw [hot, Option.some.inj hvc])
    | none =>
        intro hcon
        have hcc : sget (costSynth (revenueSynth (coerceStage
            (cleanPreDerive P d user)))).2 "cost" = some c := hcon
        exact hcost2 hcc
  have hr3 : (profitMarginStage (costSynth (revenueSynth (coerceStage
      (cleanPreDerive P d user))))).1.getCol c = some (List.map cleanTextV l) := by
    rw [profitMarginStage_getCol_ne _ c hrev2 hccol2 hs4 hs5]
    exact hr2
  have hr4 : (cleanPreFilter P d user).1.getCol c = some (List.map cleanTextV l) := by
    show (quantityInferStage (profitMarginStage (costSynth (revenueSynth (coerceStage
      (cleanPreDerive P d user)))))).1.getCol c = _
    rw [quantityInferStage_getCol_ne _ c hs3]
    exact hr3
  constructor
  · intro v hv
    have hfin : ((clean_dataframe P d user).1.getCol c) =
        some (maskFilter (admitMask (cleanPreFilter P d user).1 (cleanPreFilter P d user).2)
          (List.map cleanTextV l)) := by
      show ((filterDF (cleanPreFilter P d user).1 _).getCol c) = _
      rw [getCol_filterDF, hr4]
      rfl
    rw [hfin] at hv
    simp only [Option.getD_some] at hv
    obtain ⟨w, _, hw⟩ := List.mem_map.mp (maskFilter_mem _ _ _ hv)
    obtain ⟨t, ht⟩ := cleanTextV_shape w
    exact ⟨t, by rw [← hw, ht]⟩
  · intro w
    cases w <;> rfl

/-- The C10 counterexample upload: `"x"` holds a null; `"product"` keeps
the row alive through the admission filter. -/
def dfC10 : DF := ⟨[("x", [Value.null]), ("product", [Value.str "p"])]⟩

/-- The C10 counterexample user schema, aliasing the text field
`category` and the numeric field `revenue` onto the same column `"x"`. -/
def userC10 : List (String × Option String) := [("category", some "x"), ("revenue", some "x")]

/-- **C10** counterexample: with `category` and `revenue` both mapped to
column `"x"`, the revenue coercion turns the stringified `"nan"` cell
back into a null, so the cleaned table's mapped category column contains
a null — the presence test fails for that row, falsifying the claim. -/
theorem c10_counterexample :
    sget (clean_dataframe trivialP dfC10 (some userC10)).2 "category" = some "x" ∧
    (clean_dataframe trivialP dfC10 (some userC10)).1.getCol "x" = some [Value.null] ∧
    Value.notnaB Value.null = false := by
  refine ⟨by decide, by decide, by decide⟩

/-- The C10 witness upload: an untrimmed product name and a revenue
column, with no aliasing. -/
def dfW10 : DF := ⟨[("product", [Value.str "  Widget "]), ("amount", [Value.num 5])]⟩

/-- **C10** witness: on the unaliased table the mapped product column of
the cleaned result consists of trimmed strings. -/
theorem c10_witness :
    (("product" : String) = "product" ∨ ("product" : String) = "category" ∨
        ("product" : String) = "order_id") ∧
    sget (cleanToDate trivialP dfW10 none).2 "product" = some "product" ∧
    (cleanToDate trivialP dfW10 none).1.hasCol "product" = true ∧
    (∀ v ∈ ((clean_dataframe trivialP dfW10 none).1.getCol "product").getD [],
      ∃ t, v = Value.str (strTrim t)) :=
  ⟨Or.inl rfl, by decide, by decide,
    (c10_text_columns trivialP dfW10 none "product" "product" (Or.inl rfl) (by decide)
      (by decide) (by decide) (by decide)).1⟩
